import Mathlib

/-!
# RowWriter: the streaming row encoder of `dataman/RowWriter.h`

A shallow embedding of the write path of `vesoft::vgraph::RowWriter`.

* The session state is the list of private members of the class.
* The two macros `RW_GET_COLUMN_TYPE` and `RW_CLEAN_UP_WRITE`, which open and
  close every data-stream `operator<<`, are translated statement by statement.
* `int32_t` arithmetic on `colNum_` is arithmetic on `Int` reduced to the
  32-bit two's-complement range by `wrapInt32`.  In C++ the overflow of
  `colNum_++` is undefined, so the statements about column counts are made for
  counts up to `INT32_MAX`.
* A failed `CHECK`, a null dereference and a type mismatch end the session:
  they are the `error` results of an `Except`, which also carries the state
  the session was in when it stopped.
* What an operator does between the two macros is a parameter (`writeWith`):
  the operators are defined in `RowWriter.inl`, the header only declares them.
  The codec of the specification (`Value.encode`, `writeInt`,
  `calcOccupiedBytes`) is one instance, modelled from the specification and
  marked as such.
* `operator<<(Skip&&)`, `encode()` and `size()` are declared in the header and
  defined in `RowWriter.cpp`; they are modelled from the specification too.

The file has three parts: the definitions, facts about them, and the claims
of the specification, each with a concrete instance.
-/

namespace vgraph

/-! ## Data model -/

/-- Modelled from the spec: the thrift enum `storage::cpp2::SupportedType` is
generated code, the header only names it.  The kinds are the ones the value
codec of the specification distinguishes: boolean, integer, 32-bit float,
64-bit float and text. -/
inductive SupportedType where
  | UNKNOWN
  | BOOL
  | INT
  | FLOAT
  | DOUBLE
  | STRING
deriving DecidableEq, Repr

/-- Modelled from the spec: `storage::cpp2::ValueType` is generated code; the
header uses its `set_type` only, so a value type is its `SupportedType`. -/
structure ValueType where
  type : SupportedType
deriving DecidableEq, Repr

/-- The control token `RowWriter::ColName`: the name for the next column. -/
structure ColName where
  name_ : String
deriving DecidableEq, Repr

/-- The control token `RowWriter::ColType`: the type for the next column. -/
structure ColType where
  type_ : ValueType
deriving DecidableEq, Repr

/-- The constructor `ColType(storage::cpp2::SupportedType type)`, whose body is
`type_.set_type(type)`. -/
def ColType.ofSupportedType (type : SupportedType) : ColType :=
  { type_ := { type := type } }

/-- The part of `SchemaProviderIf` the macros consult: the number of fields of
a schema version and the declared type of a field of a version.  The interface
is declared outside the header, so it is a parameter of the session. -/
structure SchemaProviderIf where
  getNumFields : Int → Int
  getFieldType : Int → Int → ValueType

/-- Modelled from the spec: `SchemaWriter` (dataman/SchemaWriter.h) is the
schema-under-construction, "grown by appending (name, type) pairs, never
shrunk, never reordered". -/
structure SchemaWriter where
  columns : List (String × ValueType)
deriving DecidableEq, Repr

/-- Modelled from the spec: `SchemaWriter::appendCol`, "append field
(name, type)". -/
def SchemaWriter.appendCol (sw : SchemaWriter) (name : String) (type : ValueType) :
    SchemaWriter :=
  { columns := sw.columns ++ [(name, type)] }

/-- Modelled from the spec: `Cord` (base/Cord.h) is the append-only output
buffer: "append bytes" and "current length".  A byte is a natural number
below 256. -/
abbrev Cord := List Nat

/-- The private members of `RowWriter`, in declaration order. -/
structure RowWriter where
  schema_ : SchemaProviderIf
  schemaVer_ : Int
  schemaWriter_ : Option SchemaWriter
  cord_ : Cord
  colNum_ : Int
  colName_ : Option ColName
  colType_ : Option ColType
  blockOffsets_ : List Int

/-- How a stream operation stops a session. -/
inductive Fault where
  /-- The check `CHECK(!!schemaWriter_) << "SchemaWriter cannot be NULL"` failed. -/
  | schemaWriterNull
  /-- A null `colType_` or `schemaWriter_` was dereferenced in the clean-up. -/
  | nullDereference
  /-- The kind of the pushed value disagrees with the resolved column type. -/
  | typeMismatch
  /-- A name or type override was pushed where the existing schema governs. -/
  | overrideForbidden
  /-- A column was skipped that no field of the existing schema governs. -/
  | skipBeyondSchema
deriving DecidableEq, Repr

/-- The result of a stream operation: a value, or the fault together with the
state of the session when it stopped. -/
abbrev Result (α : Type) := Except (Fault × RowWriter) α

/-- The session right after construction: the two constructor arguments, the
schema-under-construction the constructor installs (if any), and the default
member initialisers of the header (`colNum_ = 0`, empty `cord_`, null
`colName_` and `colType_`, empty `blockOffsets_`). -/
def RowWriter.fresh (schema : SchemaProviderIf) (schemaVer : Int)
    (schemaWriter : Option SchemaWriter) : RowWriter :=
  { schema_ := schema
    schemaVer_ := schemaVer
    schemaWriter_ := schemaWriter
    cord_ := []
    colNum_ := 0
    colName_ := none
    colType_ := none
    blockOffsets_ := [] }

/-- Modelled from the spec: the schema consulted when "no existing schema was
supplied at all": it has no field, so "every column starts in Extending
state". -/
def noSchema : SchemaProviderIf :=
  { getNumFields := fun _ => 0
    getFieldType := fun _ _ => { type := SupportedType.UNKNOWN } }

/-- Modelled from the spec: the constructor `RowWriter(nullptr, schemaVer)` is
in RowWriter.cpp.  With no existing schema "a schema-under-construction is
mandatory from column 0": the session starts with an empty one. -/
def RowWriter.withoutSchema (schemaVer : Int) : RowWriter :=
  RowWriter.fresh noSchema schemaVer (some { columns := [] })

/-! ## 32-bit arithmetic -/

/-- The largest `int32_t`. -/
def INT32_MAX : Int := 2147483647

/-- Reduction of an integer to the `int32_t` range (two's complement). -/
def wrapInt32 (x : Int) : Int :=
  (x + 2147483648) % 4294967296 - 2147483648

/-- The operator `>>` on an `int32_t`: an arithmetic shift, which rounds
towards minus infinity. -/
def shiftRight32 (x : Int) (k : Nat) : Int :=
  x >>> k

/-- The operator `<<` on an `int32_t`: a multiplication by a power of two,
reduced to 32 bits. -/
def shiftLeft32 (x : Int) (k : Nat) : Int :=
  wrapInt32 (x * 2 ^ k)

/-- The test `colNum_ != 0 && (colNum_ >> 4 << 4) == colNum_` of
`RW_CLEAN_UP_WRITE`. -/
def atBlockBoundary (colNum : Int) : Bool :=
  colNum != 0 && shiftLeft32 (shiftRight32 colNum 4) 4 == colNum

/-! ## The two macros -/

/-- The macro `RW_GET_COLUMN_TYPE(STYPE)`: resolves the type of the column about to be
written.  Returns the type `type` points to and the session, whose `colType_`
the macro may have filled in. -/
def RW_GET_COLUMN_TYPE (STYPE : SupportedType) (w : RowWriter) :
    Result (ValueType × RowWriter) :=
  if w.colNum_ ≥ w.schema_.getNumFields w.schemaVer_ then
    match w.schemaWriter_ with
    | none => .error (Fault.schemaWriterNull, w)
    | some _ =>
      match w.colType_ with
      | none =>
        let ct := ColType.ofSupportedType STYPE
        .ok (ct.type_, { w with colType_ := some ct })
      | some ct => .ok (ct.type_, w)
  else
    .ok (w.schema_.getFieldType w.colNum_ w.schemaVer_, w)

/-- The macro `RW_CLEAN_UP_WRITE()`: advances the column index, records a block offset
every 16 fields, appends the new column to the schema-under-construction when
the index has passed the existing schema, and resets both overrides. -/
def RW_CLEAN_UP_WRITE (w : RowWriter) : Result RowWriter :=
  let w1 := { w with colNum_ := wrapInt32 (w.colNum_ + 1) }
  let w2 :=
    if atBlockBoundary w1.colNum_ then
      { w1 with blockOffsets_ := w1.blockOffsets_ ++ [(w1.cord_.length : Int)] }
    else w1
  if w2.colNum_ > w2.schema_.getNumFields w2.schemaVer_ then
    match w2.schemaWriter_, w2.colType_ with
    | some sw, some ct =>
      let name :=
        match w2.colName_ with
        | none => "Column" ++ toString w2.colNum_
        | some cn => cn.name_
      .ok { w2 with
            schemaWriter_ := some (sw.appendCol name ct.type_)
            colName_ := none
            colType_ := none }
    | _, _ => .error (Fault.nullDereference, w2)
  else
    .ok { w2 with colName_ := none, colType_ := none }

/-! ## The value codec -/

/-- The integral types `T` accepted by `operator<<(T)` and `writeInt(T)`:
signed and unsigned, 8, 16, 32 and 64 bits wide. -/
inductive IntType where
  | int8
  | uint8
  | int16
  | uint16
  | int32
  | uint32
  | int64
  | uint64
deriving DecidableEq, Repr

/-- The declared width of an integral type, in bits. -/
def IntType.bits : IntType → Nat
  | .int8 | .uint8 => 8
  | .int16 | .uint16 => 16
  | .int32 | .uint32 => 32
  | .int64 | .uint64 => 64

/-- Whether an integral type is signed. -/
def IntType.signed : IntType → Bool
  | .int8 | .int16 | .int32 | .int64 => true
  | .uint8 | .uint16 | .uint32 | .uint64 => false

/-- The smallest value of an integral type. -/
def IntType.minValue (T : IntType) : Int :=
  if T.signed then -(2 ^ (T.bits - 1)) else 0

/-- The largest value of an integral type. -/
def IntType.maxValue (T : IntType) : Int :=
  if T.signed then 2 ^ (T.bits - 1) - 1 else 2 ^ T.bits - 1

/-- The conversion of an integral value to `uint64_t`: a negative value is
sign-extended to 64 bits. -/
def toUInt64 (v : Int) : Nat :=
  (v % 2 ^ 64).toNat

/-- The loop of `calcOccupiedBytes`: count one byte, drop the low byte, and go
on while something is left.  Eight rounds exhaust a `uint64_t`. -/
def calcOccupiedBytesLoop : Nat → Nat → Nat → Nat
  | 0, _, bytes => bytes
  | fuel + 1, v, bytes =>
    if v / 256 ≠ 0 then calcOccupiedBytesLoop fuel (v / 256) (bytes + 1)
    else bytes + 1

/-- Modelled from the spec: `RowWriter::calcOccupiedBytes(uint64_t v)` is
declared in the header ("Calculate the number of bytes occupied (ignore the
leading 0s)") and defined in RowWriter.cpp.  It is "the minimal number of
bytes needed to represent the value's magnitude, ignoring leading zero bytes";
"a value of 0 occupies the minimum representable unit, 1 byte". -/
def calcOccupiedBytes (v : Nat) : Nat :=
  calcOccupiedBytesLoop 8 (v % 2 ^ 64) 0

/-- The `n` low-order bytes of `u`, least significant byte first: the "fixed
byte order" of the value bytes. -/
def lowBytes (n : Nat) (u : Nat) : List Nat :=
  (List.range n).map (fun i => u / 256 ^ i % 256)

/-- Modelled from the spec: the magnitude of an integral value together with
its sign bit, as the `uint64_t` handed to `calcOccupiedBytes`: the sign is
dropped (a negative value is complemented) and the magnitude is shifted left
by one bit, which keeps the top bit of the stored bytes for the sign.  A
magnitude that fills all 64 bits saturates. -/
def signedMagnitude (v : Int) : Nat :=
  let u := toUInt64 v
  let magnitude := if v < 0 then 2 ^ 64 - 1 - u else u
  min (2 * magnitude) (2 ^ 64 - 1)

/-- Modelled from the spec: the number of value bytes of an integer, "the
minimal number of bytes needed to represent the value's magnitude, ignoring
leading zero bytes", such that "truncating to the minimal byte count must
still sign-extend correctly on decode" ("the standard two's-complement
truncation rule"): the bytes `calcOccupiedBytes` counts in the magnitude with
its sign bit. -/
def occupiedBytes (v : Int) : Nat :=
  calcOccupiedBytes (signedMagnitude v)

/-- Modelled from the spec: `RowWriter::writeInt(T v)` is declared in the
header and defined in RowWriter.inl.  It "emit[s] a small encoded unit
describing how many bytes follow" (here one byte holding the count), "then
emit[s] exactly that many bytes of the value in a fixed byte order": the low
bytes of the two's-complement representation, as many as `occupiedBytes`
counts.  The result is the bytes appended to `cord_`. -/
def writeInt (v : Int) : List Nat :=
  let n := occupiedBytes v
  n :: lowBytes n (toUInt64 v)

/-- A value pushed into the stream.  A floating-point value is its IEEE-754
bit pattern; a text value is its bytes. -/
inductive Value where
  | bool (v : Bool)
  | float (bitPattern : Nat)
  | double (bitPattern : Nat)
  | int (T : IntType) (v : Int)
  | string (v : List Nat)
deriving DecidableEq, Repr

/-- Modelled from the spec: the `STYPE` each `operator<<` passes to
`RW_GET_COLUMN_TYPE`, the type "inferred from the pushed value's own kind". -/
def Value.kind : Value → SupportedType
  | .bool _ => SupportedType.BOOL
  | .float _ => SupportedType.FLOAT
  | .double _ => SupportedType.DOUBLE
  | .int _ _ => SupportedType.INT
  | .string _ => SupportedType.STRING

/-- Modelled from the spec: the bytes the value codec appends (§4.2).  A
boolean takes 1 byte, a float 4, a double 8, "no framing"; an integer is
packed by `writeInt`; a text value is "a length prefix followed by the raw
bytes, with length using the same minimal-byte-count framing as unsigned
integers". -/
def Value.encode : Value → List Nat
  | .bool v => [if v then 1 else 0]
  | .float b => lowBytes 4 b
  | .double b => lowBytes 8 b
  | .int _ v => writeInt v
  | .string s => writeInt (s.length : Int) ++ s

/-! ## The stream operators -/

/-- The frame of a data-stream operator: `RW_GET_COLUMN_TYPE(STYPE)`, the
operator's own statements, `RW_CLEAN_UP_WRITE()`.  The operators are defined in
RowWriter.inl, so their own statements are the parameter `body`: given the
resolved type, the bytes the operator appends to `cord_`, or nothing when it
reports that the kind of the pushed value disagrees with the resolved type. -/
def RowWriter.writeWith (STYPE : SupportedType) (body : ValueType → Option (List Nat))
    (w : RowWriter) : Result RowWriter :=
  match RW_GET_COLUMN_TYPE STYPE w with
  | .error e => .error e
  | .ok (type, w1) =>
    match body type with
    | none => .error (Fault.typeMismatch, w1)
    | some bytes => RW_CLEAN_UP_WRITE { w1 with cord_ := w1.cord_ ++ bytes }

/-- Modelled from the spec: what the operator for a value does between the
two macros.  "Pushing a value whose kind disagrees with the resolved column
type" is a contract violation "reported at write time"; otherwise the encoded
value is appended. -/
def Value.body (v : Value) (type : ValueType) : Option (List Nat) :=
  if type.type = v.kind then some v.encode else none

/-- Modelled from the spec: the data-stream operators `operator<<(bool)`,
`operator<<(float)`, `operator<<(double)`, `operator<<(T)` and
`operator<<(const std::string&)` are defined in RowWriter.inl.  Each is the
frame `writeWith`, with the kind of its value as `STYPE`. -/
def RowWriter.write (v : Value) (w : RowWriter) : Result RowWriter :=
  w.writeWith v.kind v.body

/-- Modelled from the spec: `operator<<(ColName&&)` is defined in
RowWriter.cpp.  The override "may only be set when no existing-schema entry
governs the current column"; it replaces a pending one ("last write wins"). -/
def RowWriter.setColName (name : String) (w : RowWriter) : Result RowWriter :=
  if w.colNum_ < w.schema_.getNumFields w.schemaVer_ then
    .error (Fault.overrideForbidden, w)
  else
    .ok { w with colName_ := some { name_ := name } }

/-- Modelled from the spec: `operator<<(ColType&&)` is defined in
RowWriter.cpp, under the same rule as `operator<<(ColName&&)`. -/
def RowWriter.setColType (type : SupportedType) (w : RowWriter) : Result RowWriter :=
  if w.colNum_ < w.schema_.getNumFields w.schemaVer_ then
    .error (Fault.overrideForbidden, w)
  else
    .ok { w with colType_ := some (ColType.ofSupportedType type) }

/-- What the caller pushes into the stream: a data-stream operator, given by
its `STYPE` and its body, or a control token. -/
inductive Token where
  | write (STYPE : SupportedType) (body : ValueType → Option (List Nat))
  | colName (name : String)
  | colType (type : SupportedType)

/-- The token of a pushed value. -/
def Token.value (v : Value) : Token :=
  Token.write v.kind v.body

/-- One `operator<<`. -/
def RowWriter.push (t : Token) (w : RowWriter) : Result RowWriter :=
  match t with
  | .write STYPE body => w.writeWith STYPE body
  | .colName name => w.setColName name
  | .colType type => w.setColType type

/-- A chain `writer << t₁ << t₂ << …`: it stops at the first fault. -/
def RowWriter.pushAll : List Token → RowWriter → Result RowWriter
  | [], w => .ok w
  | t :: ts, w =>
    match w.push t with
    | .error e => .error e
    | .ok w1 => RowWriter.pushAll ts w1

/-- The number of value writes in a chain. -/
def countWrites : List Token → Nat
  | [] => 0
  | .write _ _ :: ts => countWrites ts + 1
  | _ :: ts => countWrites ts

/-- A token that, when it is a value write, appends at least one byte. -/
def Token.appendsBytes : Token → Prop
  | .write _ body => ∀ type bytes, body type = some bytes → bytes ≠ []
  | _ => True

/-- The number of fields of the existing schema, as the macros read it. -/
abbrev RowWriter.numFields (w : RowWriter) : Int :=
  w.schema_.getNumFields w.schemaVer_

/-! ## Skipping columns -/

/-- Modelled from the spec: one round of `operator<<(Skip&&)`, which is defined
in RowWriter.cpp.  "For each of the k columns, look up the default encoding for
that column's declared type in the existing schema, append that default's
bytes, advance the column index, and update the block index, exactly as if a
value had been written.  Fails with a contract violation if no existing schema
governs the skipped range."  The default value the schema declares for a type
is the parameter `defaults`; the pending overrides are "consumed and cleared
... by the next value write or skip". -/
def RowWriter.skipOne (defaults : ValueType → Value) (w : RowWriter) : Result RowWriter :=
  if w.colNum_ < w.schema_.getNumFields w.schemaVer_ then
    let type := w.schema_.getFieldType w.colNum_ w.schemaVer_
    let cord := w.cord_ ++ (defaults type).encode
    let colNum := wrapInt32 (w.colNum_ + 1)
    .ok { w with
          cord_ := cord
          colNum_ := colNum
          colName_ := none
          colType_ := none
          blockOffsets_ :=
            if atBlockBoundary colNum then w.blockOffsets_ ++ [(cord.length : Int)]
            else w.blockOffsets_ }
  else
    .error (Fault.skipBeyondSchema, w)

/-- The rounds of a skip, one per column; the first fault stops them. -/
def RowWriter.skipLoop (defaults : ValueType → Value) : Nat → RowWriter → Result RowWriter
  | 0, w => .ok w
  | k + 1, w =>
    match w.skipOne defaults with
    | .error e => .error e
    | .ok w1 => RowWriter.skipLoop defaults k w1

/-- Modelled from the spec: `operator<<(Skip&&)` with `Skip(toSkip)`, "skip N
columns"; a count that is not positive skips nothing. -/
def RowWriter.skip (defaults : ValueType → Value) (toSkip : Int) (w : RowWriter) :
    Result RowWriter :=
  RowWriter.skipLoop defaults toSkip.toNat w

/-- The tokens that write, one by one, the declared default values of the `k`
columns from index `colNum` on. -/
def defaultTokens (defaults : ValueType → Value) (schema : SchemaProviderIf)
    (schemaVer : Int) : Int → Nat → List Token
  | _, 0 => []
  | colNum, k + 1 =>
    Token.value (defaults (schema.getFieldType colNum schemaVer)) ::
      defaultTokens defaults schema schemaVer (colNum + 1) k

/-! ## Finalization -/

/-- The offset table of the encoded row: every block offset, an `int64_t`, as
its eight bytes, least significant byte first. -/
def offsetTable : List Int → List Nat
  | [] => []
  | o :: os => lowBytes 8 (toUInt64 o) ++ offsetTable os

/-- Modelled from the spec: `RowWriter::encode()` is declared in the header
("Encode into a binary array") and defined in RowWriter.cpp.  It "produces the
final byte sequence (header + offset table + packed field bytes)", the header
holding "field count, schema version, offset-table size"; each header cell is
packed like an integer value. -/
def RowWriter.encode (w : RowWriter) : List Nat :=
  (writeInt w.colNum_ ++ writeInt w.schemaVer_ ++ writeInt (w.blockOffsets_.length : Int))
    ++ offsetTable w.blockOffsets_ ++ w.cord_

/-- Modelled from the spec: `RowWriter::size() const` is declared in the header
("Calculate the exact length of the encoded binary array") and defined in
RowWriter.cpp.  It computes the length from the counters, without building the
array; it is a `const` member function, so the session it returns is the
session it was called on. -/
def RowWriter.size (w : RowWriter) : Int × RowWriter :=
  let headerCells :=
    occupiedBytes w.colNum_ + occupiedBytes w.schemaVer_
      + occupiedBytes (w.blockOffsets_.length : Int)
  ((w.cord_.length + 8 * w.blockOffsets_.length + headerCells + 3 : Nat), w)

/-! ## Reading an integer back -/

/-- The number held by value bytes, least significant byte first. -/
def fromLowBytes : List Nat → Nat
  | [] => 0
  | b :: bs => b + 256 * fromLowBytes bs

/-- The value of the integral type `T` whose bit pattern is `x` reduced to the
declared width of `T`. -/
def IntType.ofBits (T : IntType) (x : Int) : Int :=
  if T.signed then (x + 2 ^ (T.bits - 1)) % 2 ^ T.bits - 2 ^ (T.bits - 1)
  else x % 2 ^ T.bits

/-- Modelled from the spec: the decoding the round-trip property names,
"sign-extending the stored bytes back to the declared width": the top bit of
the most significant stored byte is the sign. -/
def signExtend (T : IntType) (bytes : List Nat) : Int :=
  let raw : Int := (fromLowBytes bytes : Int)
  T.ofBits (if 2 ^ (8 * bytes.length - 1) ≤ raw then raw - 2 ^ (8 * bytes.length) else raw)

/-- Modelled from the spec: the decoder of what `writeInt` emits (the reader
is outside the repository): it reads the framing unit, takes that many value
bytes and sign-extends them to the declared width. -/
def readInt (T : IntType) (encoded : List Nat) : Int :=
  match encoded with
  | [] => 0
  | n :: rest => signExtend T (rest.take n)

/-! ## A schema to run the model on -/

/-- The schema of the specification's scenario: two fields, `id` (a 32-bit
signed integer) and `name` (text). -/
def idNameSchema : SchemaProviderIf :=
  { getNumFields := fun _ => 2
    getFieldType := fun index _ =>
      if index = 0 then { type := SupportedType.INT } else { type := SupportedType.STRING } }

/-- A session without an existing schema in which the name `id` and the type
INT are pending for the first column. -/
def pendingIdInt : RowWriter :=
  { RowWriter.withoutSchema 0 with
    colName_ := some { name_ := "id" }
    colType_ := some (ColType.ofSupportedType SupportedType.INT) }

/-- A fresh session bound to the schema (`id`, `name`), in which a type
override is pending although the existing schema governs column 0. -/
def boundWithPendingType : RowWriter :=
  { RowWriter.fresh idNameSchema 0 none with
    colType_ := some (ColType.ofSupportedType SupportedType.BOOL) }

/-- A session bound to the schema (`id`, `name`) that has passed both fields
and has no schema-under-construction. -/
def pastIdName : RowWriter :=
  { RowWriter.fresh idNameSchema 0 none with colNum_ := 2 }

/-- The session a chain leaves behind: the state it ends in, or the state in
which it stopped. -/
def Result.session (r : Result RowWriter) : RowWriter :=
  match r with
  | .ok w => w
  | .error (_, w) => w

/-- The session without an existing schema into which fifteen booleans have
been written. -/
def fifteenBooleans : RowWriter :=
  ((RowWriter.withoutSchema 0).pushAll
    (List.replicate 15 (Token.value (Value.bool true)))).session

/-- A session on the schema (`id`, `name`) that has passed both fields and
extends the schema with a schema-under-construction. -/
def extendingIdName : RowWriter :=
  { RowWriter.fresh idNameSchema 0 (some { columns := [] }) with colNum_ := 2 }

/-- Default values to run the model on: false, zero and the empty text. -/
def zeroDefaults (type : ValueType) : Value :=
  match type.type with
  | SupportedType.BOOL => Value.bool false
  | SupportedType.INT => Value.int IntType.int64 0
  | SupportedType.FLOAT => Value.float 0
  | SupportedType.DOUBLE => Value.double 0
  | _ => Value.string []

/-- The row of the specification's scenario: `id = 42` and `name = "abc"`
written against the schema (`id`, `name`). -/
def idNameRow : RowWriter :=
  ((RowWriter.fresh idNameSchema 0 none).pushAll
    [Token.value (Value.int IntType.int32 42), Token.value (Value.string [97, 98, 99])]).session


/-! ## Facts about the 32-bit arithmetic -/

theorem wrapInt32_eq_self {x : Int} (h0 : -2147483648 ≤ x) (h1 : x ≤ 2147483647) :
    wrapInt32 x = x := by
  unfold wrapInt32
  omega

theorem atBlockBoundary_eq_true_iff {c : Int} (h0 : 0 ≤ c) (h1 : c ≤ 2147483647) :
    atBlockBoundary c = true ↔ (c ≠ 0 ∧ c % 16 = 0) := by
  have hshift : shiftRight32 c 4 = c / 16 := by
    unfold shiftRight32
    rw [Int.shiftRight_eq_div_pow]
    norm_num
  have hwrap : shiftLeft32 (c / 16) 4 = c / 16 * 16 := by
    unfold shiftLeft32
    have : (c / 16 * 2 ^ 4 : Int) = c / 16 * 16 := by norm_num
    rw [this]
    apply wrapInt32_eq_self <;> omega
  unfold atBlockBoundary
  rw [hshift, hwrap]
  simp only [Bool.and_eq_true, bne_iff_ne, ne_eq, beq_iff_eq]
  constructor
  · rintro ⟨hne, heq⟩
    exact ⟨hne, by omega⟩
  · rintro ⟨hne, hmod⟩
    exact ⟨hne, by omega⟩

/-! ## Facts about the two macros -/


theorem RW_CLEAN_UP_WRITE_fields {w w' : RowWriter} (h : RW_CLEAN_UP_WRITE w = .ok w') :
    w'.colNum_ = wrapInt32 (w.colNum_ + 1) ∧ w'.cord_ = w.cord_ ∧
    w'.schema_ = w.schema_ ∧ w'.schemaVer_ = w.schemaVer_ ∧
    w'.colName_ = none ∧ w'.colType_ = none ∧
    w'.blockOffsets_ =
      (if atBlockBoundary (wrapInt32 (w.colNum_ + 1)) then
        w.blockOffsets_ ++ [(w.cord_.length : Int)]
      else w.blockOffsets_) := by
  obtain ⟨schema, ver, sw, cord, c, nm, ty, offs⟩ := w
  cases sw <;> cases ty <;>
    by_cases hb : atBlockBoundary (wrapInt32 (c + 1)) = true <;>
    by_cases hN : wrapInt32 (c + 1) > schema.getNumFields ver <;>
    simp [RW_CLEAN_UP_WRITE, hb, hN] at h ⊢ <;>
    (subst h; simp)

theorem RW_CLEAN_UP_WRITE_schemaWriter {w w' : RowWriter}
    (h : RW_CLEAN_UP_WRITE w = .ok w') :
    (¬ wrapInt32 (w.colNum_ + 1) > w.numFields → w'.schemaWriter_ = w.schemaWriter_) ∧
    (wrapInt32 (w.colNum_ + 1) > w.numFields →
      ∃ sw ct, w.schemaWriter_ = some sw ∧ w.colType_ = some ct ∧
        w'.schemaWriter_ = some (sw.appendCol
          (match w.colName_ with
            | none => "Column" ++ toString (wrapInt32 (w.colNum_ + 1))
            | some cn => cn.name_)
          ct.type_)) := by
  obtain ⟨schema, ver, sw, cord, c, nm, ty, offs⟩ := w
  cases sw <;> cases ty <;>
    by_cases hb : atBlockBoundary (wrapInt32 (c + 1)) = true <;>
    by_cases hN : wrapInt32 (c + 1) > schema.getNumFields ver <;>
    simp [RW_CLEAN_UP_WRITE, hb, hN] at h ⊢ <;>
    (subst h; simp)

theorem RW_GET_COLUMN_TYPE_ok {STYPE : SupportedType} {w w1 : RowWriter} {ty : ValueType}
    (h : RW_GET_COLUMN_TYPE STYPE w = .ok (ty, w1)) :
    w1.colNum_ = w.colNum_ ∧ w1.cord_ = w.cord_ ∧ w1.schema_ = w.schema_ ∧
    w1.schemaVer_ = w.schemaVer_ ∧ w1.schemaWriter_ = w.schemaWriter_ ∧
    w1.colName_ = w.colName_ ∧ w1.blockOffsets_ = w.blockOffsets_ ∧
    (w.colNum_ < w.numFields →
      w1.colType_ = w.colType_ ∧ ty = w.schema_.getFieldType w.colNum_ w.schemaVer_) ∧
    (w.numFields ≤ w.colNum_ →
      w.schemaWriter_ ≠ none ∧ w1.colType_ = some { type_ := ty } ∧
      ty = (w.colType_.getD (ColType.ofSupportedType STYPE)).type_) := by
  obtain ⟨schema, ver, sw, cord, c, nm, ct, offs⟩ := w
  by_cases hN : c ≥ schema.getNumFields ver
  · have hN2 : ¬ c < schema.getNumFields ver := by omega
    cases sw <;> cases ct <;>
      simp [RW_GET_COLUMN_TYPE, hN, hN2] at h ⊢ <;>
      (obtain ⟨h1, h2⟩ := h; subst h1; subst h2; simp [hN, ColType.ofSupportedType])
  · have hN2 : c < schema.getNumFields ver := by omega
    have hN3 : ¬ schema.getNumFields ver ≤ c := by omega
    simp [RW_GET_COLUMN_TYPE, hN2, hN3] at h ⊢
    obtain ⟨h1, h2⟩ := h
    subst h1; subst h2
    simp

theorem RW_CLEAN_UP_WRITE_error {w w0 : RowWriter} {f : Fault}
    (h : RW_CLEAN_UP_WRITE w = .error (f, w0)) : f = Fault.nullDereference := by
  obtain ⟨schema, ver, sw, cord, c, nm, ty, offs⟩ := w
  cases sw <;> cases ty <;>
    by_cases hb : atBlockBoundary (wrapInt32 (c + 1)) = true <;>
    by_cases hN : wrapInt32 (c + 1) > schema.getNumFields ver <;>
    simp [RW_CLEAN_UP_WRITE, hb, hN] at h ⊢ <;>
    exact h.1.symm

theorem RW_GET_COLUMN_TYPE_error {STYPE : SupportedType} {w w0 : RowWriter} {f : Fault}
    (h : RW_GET_COLUMN_TYPE STYPE w = .error (f, w0)) :
    f = Fault.schemaWriterNull ∧ w0 = w ∧ w.numFields ≤ w.colNum_ ∧
      w.schemaWriter_ = none := by
  obtain ⟨schema, ver, sw, cord, c, nm, ct, offs⟩ := w
  by_cases hN : c ≥ schema.getNumFields ver
  · cases sw <;> cases ct <;> simp [RW_GET_COLUMN_TYPE, hN] at h ⊢ <;>
      exact ⟨h.1.symm, h.2.symm⟩
  · simp [RW_GET_COLUMN_TYPE, hN] at h

theorem RW_GET_COLUMN_TYPE_error_of {STYPE : SupportedType} {w : RowWriter}
    (hN : w.numFields ≤ w.colNum_) (hsw : w.schemaWriter_ = none) :
    RW_GET_COLUMN_TYPE STYPE w = .error (Fault.schemaWriterNull, w) := by
  obtain ⟨schema, ver, sw, cord, c, nm, ct, offs⟩ := w
  simp only at hN hsw
  subst hsw
  simp [RW_GET_COLUMN_TYPE, hN]

/-- A successful value write, field by field. -/
theorem RowWriter.writeWith_ok {w w' : RowWriter} {STYPE : SupportedType}
    {body : ValueType → Option (List Nat)} (h : w.writeWith STYPE body = .ok w') :
    w'.colNum_ = wrapInt32 (w.colNum_ + 1) ∧
    (∃ type bytes, body type = some bytes ∧ w'.cord_ = w.cord_ ++ bytes) ∧
    w'.schema_ = w.schema_ ∧ w'.schemaVer_ = w.schemaVer_ ∧
    w'.colName_ = none ∧ w'.colType_ = none ∧
    w'.blockOffsets_ =
      (if atBlockBoundary (wrapInt32 (w.colNum_ + 1)) then
        w.blockOffsets_ ++ [(w'.cord_.length : Int)]
      else w.blockOffsets_) := by
  unfold RowWriter.writeWith at h
  cases hG : RW_GET_COLUMN_TYPE STYPE w with
  | error e => rw [hG] at h; cases h
  | ok p =>
    obtain ⟨ty, w1⟩ := p
    rw [hG] at h
    simp only at h
    cases hb : body ty with
    | none => rw [hb] at h; cases h
    | some bytes =>
      rw [hb] at h
      simp only at h
      obtain ⟨g1, g2, g3, g4, -, -, g7, -, -⟩ := RW_GET_COLUMN_TYPE_ok hG
      obtain ⟨c1, c2, c3, c4, c5, c6, c7⟩ := RW_CLEAN_UP_WRITE_fields h
      simp only [g1, g2, g3, g4, g7] at c1 c2 c3 c4 c7
      rw [← c2] at c7
      exact ⟨c1, ⟨ty, bytes, hb, c2⟩, c3, c4, c5, c6, c7⟩

/-- What a successful value write does to the schema-under-construction, when
`colNum_++` does not leave the `int32_t` range. -/
theorem RowWriter.writeWith_ok_schemaWriter {w w' : RowWriter} {STYPE : SupportedType}
    {body : ValueType → Option (List Nat)}
    (hlo : -2147483648 ≤ w.colNum_) (hhi : w.colNum_ < 2147483647)
    (h : w.writeWith STYPE body = .ok w') :
    (w.colNum_ < w.numFields → w'.schemaWriter_ = w.schemaWriter_) ∧
    (w.numFields ≤ w.colNum_ →
      ∃ sw, w.schemaWriter_ = some sw ∧
        w'.schemaWriter_ = some (sw.appendCol
          (match w.colName_ with
            | none => "Column" ++ toString (w.colNum_ + 1)
            | some cn => cn.name_)
          (w.colType_.getD (ColType.ofSupportedType STYPE)).type_)) := by
  have hwrap : wrapInt32 (w.colNum_ + 1) = w.colNum_ + 1 :=
    wrapInt32_eq_self (by omega) (by omega)
  unfold RowWriter.writeWith at h
  cases hG : RW_GET_COLUMN_TYPE STYPE w with
  | error e => rw [hG] at h; cases h
  | ok p =>
    obtain ⟨ty, w1⟩ := p
    rw [hG] at h
    simp only at h
    cases hb : body ty with
    | none => rw [hb] at h; cases h
    | some bytes =>
      rw [hb] at h
      simp only at h
      obtain ⟨g1, -, g3, g4, g5, g6, -, gB, gE⟩ := RW_GET_COLUMN_TYPE_ok hG
      obtain ⟨cB, cE⟩ := RW_CLEAN_UP_WRITE_schemaWriter h
      simp only [RowWriter.numFields, g1, g3, g4, g5, g6, hwrap] at cB cE
      constructor
      · intro hlt
        exact cB (by simp only [RowWriter.numFields] at hlt; omega)
      · intro hge
        obtain ⟨sw, ct, e1, e2, e3⟩ := cE (by simp only [RowWriter.numFields] at hge; omega)
        obtain ⟨-, e4, e5⟩ := gE hge
        rw [e4] at e2
        refine ⟨sw, e1, ?_⟩
        rw [e3]
        cases e2
        rw [e5]

/-- A value write reports the fault of the type resolution, a type mismatch
of its body, or the fault of the clean-up. -/
theorem RowWriter.writeWith_error {w w0 : RowWriter} {STYPE : SupportedType}
    {body : ValueType → Option (List Nat)} {f : Fault}
    (h : w.writeWith STYPE body = .error (f, w0)) :
    (f = Fault.schemaWriterNull ∧ w0 = w ∧ w.numFields ≤ w.colNum_ ∧
      w.schemaWriter_ = none) ∨
    (f = Fault.typeMismatch ∧ w0.cord_ = w.cord_ ∧ w0.colNum_ = w.colNum_ ∧
      w0.blockOffsets_ = w.blockOffsets_) ∨
    f = Fault.nullDereference := by
  unfold RowWriter.writeWith at h
  cases hG : RW_GET_COLUMN_TYPE STYPE w with
  | error e =>
    rw [hG] at h
    simp only [Except.error.injEq] at h
    subst h
    exact Or.inl (RW_GET_COLUMN_TYPE_error hG)
  | ok p =>
    obtain ⟨ty, w1⟩ := p
    rw [hG] at h
    simp only at h
    cases hb : body ty with
    | none =>
      rw [hb] at h
      simp only [Except.error.injEq, Prod.mk.injEq] at h
      obtain ⟨h1, h2⟩ := h
      subst h1 h2
      obtain ⟨g1, g2, -, -, -, -, g7, -, -⟩ := RW_GET_COLUMN_TYPE_ok hG
      exact Or.inr (Or.inl ⟨rfl, g2, g1, g7⟩)
    | some bytes =>
      rw [hb] at h
      exact Or.inr (Or.inr (RW_CLEAN_UP_WRITE_error h))

/-- The three cases of the type resolution. -/
theorem RW_GET_COLUMN_TYPE_cases (STYPE : SupportedType) (w : RowWriter) :
    (w.colNum_ < w.schema_.getNumFields w.schemaVer_ →
      RW_GET_COLUMN_TYPE STYPE w =
        .ok (w.schema_.getFieldType w.colNum_ w.schemaVer_, w)) ∧
    (w.schema_.getNumFields w.schemaVer_ ≤ w.colNum_ → w.schemaWriter_ ≠ none →
      ∀ ct, w.colType_ = some ct → RW_GET_COLUMN_TYPE STYPE w = .ok (ct.type_, w)) ∧
    (w.schema_.getNumFields w.schemaVer_ ≤ w.colNum_ → w.schemaWriter_ ≠ none →
      w.colType_ = none →
      RW_GET_COLUMN_TYPE STYPE w =
        .ok ({ type := STYPE }, { w with colType_ := some (ColType.ofSupportedType STYPE) })) := by
  obtain ⟨schema, ver, sw, cord, c, nm, ct, offs⟩ := w
  refine ⟨?_, ?_, ?_⟩
  · intro hlt
    have : ¬ c ≥ schema.getNumFields ver := by simp only at hlt; omega
    simp [RW_GET_COLUMN_TYPE, this]
  · intro hge hsw ct' hct
    simp only at hge hsw hct
    cases sw with
    | none => exact absurd rfl hsw
    | some s => subst hct; simp [RW_GET_COLUMN_TYPE, hge]
  · intro hge hsw hct
    simp only at hge hsw hct
    cases sw with
    | none => exact absurd rfl hsw
    | some s => subst hct; simp [RW_GET_COLUMN_TYPE, hge, ColType.ofSupportedType]


/-- The clean-up stops only in its append branch, on a null pointer. -/
theorem RW_CLEAN_UP_WRITE_error_cause {w w0 : RowWriter} {f : Fault}
    (h : RW_CLEAN_UP_WRITE w = .error (f, w0)) :
    wrapInt32 (w.colNum_ + 1) > w.numFields ∧
      (w.schemaWriter_ = none ∨ w.colType_ = none) := by
  obtain ⟨schema, ver, sw, cord, c, nm, ty, offs⟩ := w
  cases sw <;> cases ty <;>
    by_cases hb : atBlockBoundary (wrapInt32 (c + 1)) = true <;>
    by_cases hN : wrapInt32 (c + 1) > schema.getNumFields ver <;>
    simp [RW_CLEAN_UP_WRITE, hb, hN] at h ⊢

/-- A value write never dereferences a null pointer in its clean-up, when
`colNum_++` does not leave the `int32_t` range. -/
theorem RowWriter.writeWith_no_nullDereference {w w0 : RowWriter} {STYPE : SupportedType}
    {body : ValueType → Option (List Nat)}
    (hlo : -2147483648 ≤ w.colNum_) (hhi : w.colNum_ < 2147483647) :
    w.writeWith STYPE body ≠ .error (Fault.nullDereference, w0) := by
  intro h
  have hwrap : wrapInt32 (w.colNum_ + 1) = w.colNum_ + 1 :=
    wrapInt32_eq_self (by omega) (by omega)
  unfold RowWriter.writeWith at h
  cases hG : RW_GET_COLUMN_TYPE STYPE w with
  | error e =>
    rw [hG] at h
    simp only [Except.error.injEq] at h
    subst h
    have := (RW_GET_COLUMN_TYPE_error hG).1
    cases this
  | ok p =>
    obtain ⟨ty, w1⟩ := p
    rw [hG] at h
    simp only at h
    cases hb : body ty with
    | none =>
      rw [hb] at h
      simp only [Except.error.injEq, Prod.mk.injEq] at h
      cases h.1
    | some bytes =>
      rw [hb] at h
      simp only at h
      obtain ⟨g1, -, g3, g4, g5, -, -, -, gE⟩ := RW_GET_COLUMN_TYPE_ok hG
      obtain ⟨c1, c2⟩ := RW_CLEAN_UP_WRITE_error_cause h
      simp only [RowWriter.numFields, g1, g3, g4, g5, hwrap] at c1 c2
      obtain ⟨e1, e2, -⟩ := gE (by simp only [RowWriter.numFields]; omega)
      rcases c2 with c2 | c2
      · exact e1 c2
      · rw [e2] at c2
        cases c2


/-! ## Facts about chains of stream operations -/

theorem Value.encode_ne_nil (v : Value) : v.encode ≠ [] := by
  cases v <;> simp [Value.encode, writeInt, lowBytes, List.range_succ]

/-- With the codec of the specification every value write appends at least
one byte. -/
theorem Token.value_appendsBytes (v : Value) : (Token.value v).appendsBytes := by
  intro type bytes h
  simp only [Value.body] at h
  split at h
  · cases h
    exact Value.encode_ne_nil v
  · cases h

/-- A control token leaves everything but the override it sets untouched. -/
theorem RowWriter.setColName_ok {w w' : RowWriter} {name : String}
    (h : w.setColName name = .ok w') :
    w'.colNum_ = w.colNum_ ∧ w'.cord_ = w.cord_ ∧ w'.schema_ = w.schema_ ∧
    w'.schemaVer_ = w.schemaVer_ ∧ w'.schemaWriter_ = w.schemaWriter_ ∧
    w'.blockOffsets_ = w.blockOffsets_ ∧ w'.colType_ = w.colType_ ∧
    w'.colName_ = some { name_ := name } ∧ w.numFields ≤ w.colNum_ := by
  unfold RowWriter.setColName at h
  split at h
  · cases h
  · cases h
    simp only [RowWriter.numFields, and_self, true_and]
    omega

theorem RowWriter.setColType_ok {w w' : RowWriter} {type : SupportedType}
    (h : w.setColType type = .ok w') :
    w'.colNum_ = w.colNum_ ∧ w'.cord_ = w.cord_ ∧ w'.schema_ = w.schema_ ∧
    w'.schemaVer_ = w.schemaVer_ ∧ w'.schemaWriter_ = w.schemaWriter_ ∧
    w'.blockOffsets_ = w.blockOffsets_ ∧ w'.colName_ = w.colName_ ∧
    w'.colType_ = some (ColType.ofSupportedType type) ∧ w.numFields ≤ w.colNum_ := by
  unfold RowWriter.setColType at h
  split at h
  · cases h
  · cases h
    simp only [RowWriter.numFields, and_self, true_and]
    omega

/-- The column index after a chain, while `colNum_++` stays in range. -/
theorem RowWriter.pushAll_colNum (toks : List Token) :
    ∀ (w w' : RowWriter), -2147483648 ≤ w.colNum_ →
      w.colNum_ + (countWrites toks : Int) ≤ 2147483647 →
      w.pushAll toks = .ok w' →
      w'.colNum_ = w.colNum_ + (countWrites toks : Int) := by
  induction toks with
  | nil =>
    intro w w' _ _ h
    simp only [RowWriter.pushAll, Except.ok.injEq] at h
    subst h
    simp [countWrites]
  | cons t ts ih =>
    intro w w' hlo hhi h
    simp only [RowWriter.pushAll] at h
    cases hp : w.push t with
    | error e => rw [hp] at h; cases h
    | ok w1 =>
      rw [hp] at h
      simp only at h
      cases t with
      | write STYPE body =>
        simp only [countWrites, Nat.cast_add, Nat.cast_one] at hhi ⊢
        have hc : w1.colNum_ = w.colNum_ + 1 := by
          rw [(RowWriter.writeWith_ok hp).1]
          exact wrapInt32_eq_self (by omega) (by omega)
        rw [ih w1 w' (by omega) (by omega) h, hc]
        omega
      | colName name =>
        simp only [countWrites] at hhi ⊢
        have hc : w1.colNum_ = w.colNum_ := (RowWriter.setColName_ok hp).1
        rw [ih w1 w' (by omega) (by omega) h, hc]
      | colType type =>
        simp only [countWrites] at hhi ⊢
        have hc : w1.colNum_ = w.colNum_ := (RowWriter.setColType_ok hp).1
        rw [ih w1 w' (by omega) (by omega) h, hc]

/-- The number of recorded block offsets after a chain. -/
theorem RowWriter.pushAll_blockOffsets_length (toks : List Token) :
    ∀ (w w' : RowWriter), 0 ≤ w.colNum_ →
      w.colNum_ + (countWrites toks : Int) ≤ 2147483647 →
      w.pushAll toks = .ok w' →
      (w'.blockOffsets_.length : Int) =
        w.blockOffsets_.length + ((w.colNum_ + (countWrites toks : Int)) / 16 - w.colNum_ / 16) := by
  induction toks with
  | nil =>
    intro w w' _ _ h
    simp only [RowWriter.pushAll, Except.ok.injEq] at h
    subst h
    simp [countWrites]
  | cons t ts ih =>
    intro w w' hlo hhi h
    simp only [RowWriter.pushAll] at h
    cases hp : w.push t with
    | error e => rw [hp] at h; cases h
    | ok w1 =>
      rw [hp] at h
      simp only at h
      cases t with
      | write STYPE body =>
        simp only [countWrites, Nat.cast_add, Nat.cast_one] at hhi ⊢
        obtain ⟨hc, -, -, -, -, -, ho⟩ := RowWriter.writeWith_ok hp
        have hw : wrapInt32 (w.colNum_ + 1) = w.colNum_ + 1 :=
          wrapInt32_eq_self (by omega) (by omega)
        rw [hw] at hc ho
        rw [ih w1 w' (by omega) (by omega) h, hc]
        by_cases hb : atBlockBoundary (w.colNum_ + 1) = true
        · have hmod := (atBlockBoundary_eq_true_iff (by omega) (by omega)).1 hb
          rw [if_pos hb] at ho
          rw [ho, List.length_append, List.length_singleton]
          push_cast
          omega
        · have hmod : ¬ (w.colNum_ + 1 ≠ 0 ∧ (w.colNum_ + 1) % 16 = 0) :=
            fun hh => hb ((atBlockBoundary_eq_true_iff (by omega) (by omega)).2 hh)
          rw [if_neg hb] at ho
          rw [ho]
          have : (w.colNum_ + 1) % 16 ≠ 0 := fun hz => hmod ⟨by omega, hz⟩
          omega
      | colName name =>
        simp only [countWrites] at hhi ⊢
        obtain ⟨hc, -, -, -, -, ho, -⟩ := RowWriter.setColName_ok hp
        rw [ih w1 w' (by omega) (by omega) h, hc, ho]
      | colType type =>
        simp only [countWrites] at hhi ⊢
        obtain ⟨hc, -, -, -, -, ho, -⟩ := RowWriter.setColType_ok hp
        rw [ih w1 w' (by omega) (by omega) h, hc, ho]

/-- The recorded offsets stay strictly increasing and inside the buffer, when
every value write appends at least one byte. -/
theorem RowWriter.pushAll_blockOffsets_valid (toks : List Token) :
    ∀ (w w' : RowWriter), (∀ t ∈ toks, t.appendsBytes) →
      w.blockOffsets_.Pairwise (· < ·) →
      (∀ o ∈ w.blockOffsets_, 0 ≤ o ∧ o ≤ (w.cord_.length : Int)) →
      w.pushAll toks = .ok w' →
      w'.blockOffsets_.Pairwise (· < ·) ∧
        ∀ o ∈ w'.blockOffsets_, 0 ≤ o ∧ o ≤ (w'.cord_.length : Int) := by
  induction toks with
  | nil =>
    intro w w' _ hp hb h
    simp only [RowWriter.pushAll, Except.ok.injEq] at h
    subst h
    exact ⟨hp, hb⟩
  | cons t ts ih =>
    intro w w' henc hpw hbd h
    have henc1 : ∀ t' ∈ ts, t'.appendsBytes :=
      fun t' ht' => henc t' (List.mem_cons_of_mem t ht')
    have henc0 : t.appendsBytes := henc t (List.mem_cons_self t ts)
    simp only [RowWriter.pushAll] at h
    cases hp : w.push t with
    | error e => rw [hp] at h; cases h
    | ok w1 =>
      rw [hp] at h
      simp only at h
      cases t with
      | write STYPE body =>
        obtain ⟨-, ⟨ty, bytes, hbody, hcord⟩, -, -, -, -, ho⟩ := RowWriter.writeWith_ok hp
        have hpos : 0 < bytes.length := List.length_pos.mpr (henc0 ty bytes hbody)
        have hlen : (w1.cord_.length : Int) = w.cord_.length + bytes.length := by
          rw [hcord, List.length_append]
          push_cast
          rfl
        apply ih w1 w' henc1 _ _ h
        · rw [ho]
          split
          · rw [List.pairwise_append]
            refine ⟨hpw, List.pairwise_singleton _ _, ?_⟩
            intro a ha b hb
            rw [List.mem_singleton] at hb
            have := (hbd a ha).2
            omega
          · exact hpw
        · intro o hmem
          rw [ho] at hmem
          split at hmem
          · rw [List.mem_append, List.mem_singleton] at hmem
            rcases hmem with hmem | hmem
            · have := hbd o hmem
              omega
            · omega
          · have := hbd o hmem
            omega
      | colName name =>
        obtain ⟨-, hcord, -, -, -, ho, -⟩ := RowWriter.setColName_ok hp
        exact ih w1 w' henc1 (by rw [ho]; exact hpw) (by rw [ho, hcord]; exact hbd) h
      | colType type =>
        obtain ⟨-, hcord, -, -, -, ho, -⟩ := RowWriter.setColType_ok hp
        exact ih w1 w' henc1 (by rw [ho]; exact hpw) (by rw [ho, hcord]; exact hbd) h

/-- The size of the schema-under-construction after a chain pushed in
Extending state. -/
theorem RowWriter.pushAll_columns_length (toks : List Token) :
    ∀ (w w' : RowWriter) (sw : SchemaWriter), w.numFields ≤ w.colNum_ →
      -2147483648 ≤ w.colNum_ →
      w.colNum_ + (countWrites toks : Int) ≤ 2147483647 →
      w.schemaWriter_ = some sw →
      w.pushAll toks = .ok w' →
      ∃ sw', w'.schemaWriter_ = some sw' ∧
        sw'.columns.length = sw.columns.length + countWrites toks := by
  induction toks with
  | nil =>
    intro w w' sw _ _ _ hsw h
    simp only [RowWriter.pushAll, Except.ok.injEq] at h
    subst h
    exact ⟨sw, hsw, by simp [countWrites]⟩
  | cons t ts ih =>
    intro w w' sw hN hlo hhi hsw h
    simp only [RowWriter.pushAll] at h
    cases hp : w.push t with
    | error e => rw [hp] at h; cases h
    | ok w1 =>
      rw [hp] at h
      simp only at h
      cases t with
      | write STYPE body =>
        simp only [countWrites, Nat.cast_add, Nat.cast_one] at hhi ⊢
        obtain ⟨hc, -, hs, hv, -, -, -⟩ := RowWriter.writeWith_ok hp
        rw [wrapInt32_eq_self (by omega) (by omega)] at hc
        obtain ⟨sw0, e0, e1⟩ :=
          (RowWriter.writeWith_ok_schemaWriter hlo (by omega) hp).2 hN
        rw [hsw] at e0
        cases e0
        have hN1 : w1.numFields ≤ w1.colNum_ := by
          simp only [RowWriter.numFields, hs, hv, hc] at hN ⊢
          omega
        obtain ⟨sw', f1, f2⟩ := ih w1 w' _ hN1 (by omega) (by omega) e1 h
        refine ⟨sw', f1, ?_⟩
        rw [f2]
        simp only [SchemaWriter.appendCol, List.length_append, List.length_singleton]
        omega
      | colName name =>
        simp only [countWrites] at hhi ⊢
        obtain ⟨hc, -, hs, hv, hw, -, -⟩ := RowWriter.setColName_ok hp
        have hN1 : w1.numFields ≤ w1.colNum_ := by
          simp only [RowWriter.numFields, hs, hv, hc] at hN ⊢
          omega
        exact ih w1 w' sw hN1 (by omega) (by omega) (by rw [hw]; exact hsw) h
      | colType type =>
        simp only [countWrites] at hhi ⊢
        obtain ⟨hc, -, hs, hv, hw, -, -⟩ := RowWriter.setColType_ok hp
        have hN1 : w1.numFields ≤ w1.colNum_ := by
          simp only [RowWriter.numFields, hs, hv, hc] at hN ⊢
          omega
        exact ih w1 w' sw hN1 (by omega) (by omega) (by rw [hw]; exact hsw) h

/-- In Extending state, with a schema-under-construction and no pending type,
the write of a value succeeds. -/
theorem RowWriter.write_extending_ok (w : RowWriter) (v : Value)
    (hN : w.numFields ≤ w.colNum_) (hlo : -2147483648 ≤ w.colNum_)
    (hhi : w.colNum_ < 2147483647) (hsw : w.schemaWriter_ ≠ none)
    (hty : w.colType_ = none) :
    ∃ w', w.write v = .ok w' := by
  obtain ⟨schema, ver, sw, cord, c, nm, ct, offs⟩ := w
  simp only [RowWriter.numFields] at hN hlo hhi hsw hty
  subst hty
  have hwrap : wrapInt32 (c + 1) = c + 1 := wrapInt32_eq_self (by omega) (by omega)
  have hgt : c + 1 > schema.getNumFields ver := by omega
  cases sw with
  | none => exact absurd rfl hsw
  | some s =>
    by_cases hb : atBlockBoundary (c + 1) = true <;>
      simp [RowWriter.write, RowWriter.writeWith, Value.body, RW_GET_COLUMN_TYPE,
        RW_CLEAN_UP_WRITE, hN, hwrap, hgt, hb, ColType.ofSupportedType]

/-- The names and types a chain of values gives to the columns it appends in
Extending state, when no override is pending. -/
theorem RowWriter.pushAll_values_columns (vs : List Value) :
    ∀ (w : RowWriter) (sw : SchemaWriter) (n : Nat), w.colNum_ = (n : Int) →
      w.numFields ≤ w.colNum_ → (n : Int) + (vs.length : Int) ≤ 2147483647 →
      w.schemaWriter_ = some sw → w.colName_ = none → w.colType_ = none →
      ∃ w', w.pushAll (vs.map Token.value) = .ok w' ∧
        w'.schemaWriter_ = some (SchemaWriter.mk (sw.columns ++
          (vs.enumFrom n).map
            (fun p => ("Column" ++ toString ((p.1 : Int) + 1), ValueType.mk p.2.kind)))) := by
  induction vs with
  | nil =>
    intro w sw n _ _ _ hsw _ _
    exact ⟨w, rfl, by simp [hsw]⟩
  | cons v vs ih =>
    intro w sw n hc hN hhi hsw hnm hty
    simp only [List.length_cons, Nat.cast_add, Nat.cast_one] at hhi
    obtain ⟨w1, hw1⟩ := RowWriter.write_extending_ok w v hN (by omega) (by omega)
      (by rw [hsw]; simp) hty
    obtain ⟨hc1, -, hs1, hv1, hnm1, hty1, -⟩ := RowWriter.writeWith_ok hw1
    rw [wrapInt32_eq_self (by omega) (by omega)] at hc1
    obtain ⟨sw0, e0, e1⟩ :=
      (RowWriter.writeWith_ok_schemaWriter (by omega) (by omega) hw1).2 hN
    rw [hsw] at e0
    cases e0
    rw [hnm, hty] at e1
    simp only [Option.getD_none, ColType.ofSupportedType] at e1
    have hN1 : w1.numFields ≤ w1.colNum_ := by
      simp only [RowWriter.numFields, hs1, hv1, hc1] at hN ⊢
      omega
    obtain ⟨w', hw', hcols⟩ := ih w1 _ (n + 1) (by rw [hc1, hc]; push_cast; rfl) hN1
      (by push_cast; omega) e1 hnm1 hty1
    refine ⟨w', ?_, ?_⟩
    · simp only [List.map_cons, RowWriter.pushAll]
      have : w.push (Token.value v) = .ok w1 := hw1
      rw [this]
      exact hw'
    · rw [hcols]
      simp only [SchemaWriter.appendCol, List.enumFrom_cons, List.map_cons, List.append_assoc,
        List.singleton_append, hc]

/-- A chain never replaces the existing schema or its version. -/
theorem RowWriter.pushAll_schema (toks : List Token) :
    ∀ (w w' : RowWriter), w.pushAll toks = .ok w' →
      w'.schema_ = w.schema_ ∧ w'.schemaVer_ = w.schemaVer_ := by
  induction toks with
  | nil =>
    intro w w' h
    simp only [RowWriter.pushAll, Except.ok.injEq] at h
    subst h
    exact ⟨rfl, rfl⟩
  | cons t ts ih =>
    intro w w' h
    simp only [RowWriter.pushAll] at h
    cases hp : w.push t with
    | error e => rw [hp] at h; cases h
    | ok w1 =>
      rw [hp] at h
      simp only at h
      obtain ⟨i1, i2⟩ := ih w1 w' h
      cases t with
      | write STYPE body =>
        obtain ⟨-, -, hs, hv, -, -, -⟩ := RowWriter.writeWith_ok hp
        exact ⟨i1.trans hs, i2.trans hv⟩
      | colName name =>
        obtain ⟨-, -, hs, hv, -, -, -⟩ := RowWriter.setColName_ok hp
        exact ⟨i1.trans hs, i2.trans hv⟩
      | colType type =>
        obtain ⟨-, -, hs, hv, -, -, -⟩ := RowWriter.setColType_ok hp
        exact ⟨i1.trans hs, i2.trans hv⟩

/-! ## Facts about the integer packing -/

theorem toUInt64_lt (v : Int) : toUInt64 v < 2 ^ 64 := by
  unfold toUInt64
  omega

theorem calcOccupiedBytesLoop_eq (k : Nat) :
    ∀ (fuel v bytes : Nat), k ≤ fuel → v < 256 ^ (k + 1) → (k = 0 ∨ 256 ^ k ≤ v) →
      calcOccupiedBytesLoop (fuel + 1) v bytes = bytes + k + 1 := by
  induction k with
  | zero =>
    intro fuel v bytes _ hv _
    have hz : v / 256 = 0 := by
      simp only [zero_add, pow_one] at hv
      omega
    simp [calcOccupiedBytesLoop, hz]
  | succ k ih =>
    intro fuel v bytes hf hv hk
    have hlo : 256 ^ (k + 1) ≤ v := by
      rcases hk with hk | hk
      · omega
      · exact hk
    obtain ⟨fuel', rfl⟩ : ∃ fuel', fuel = fuel' + 1 := ⟨fuel - 1, by omega⟩
    have hq1 : 256 ^ k ≤ v / 256 := by
      rw [Nat.le_div_iff_mul_le (by norm_num)]
      rw [pow_succ] at hlo
      exact hlo
    have hq2 : v / 256 < 256 ^ (k + 1) := by
      rw [Nat.div_lt_iff_lt_mul (by norm_num)]
      rw [pow_succ] at hv
      exact hv
    have hnz : v / 256 ≠ 0 := by
      have : 0 < 256 ^ k := Nat.pow_pos (by norm_num)
      omega
    have step : calcOccupiedBytesLoop (fuel' + 1 + 1) v bytes =
        calcOccupiedBytesLoop (fuel' + 1) (v / 256) (bytes + 1) := by
      rw [calcOccupiedBytesLoop]
      simp [hnz]
    rw [step, ih fuel' (v / 256) (bytes + 1) (by omega) hq2 (Or.inr hq1)]
    omega

theorem calcOccupiedBytes_cases (u : Nat) (hu : u < 18446744073709551616) :
    (calcOccupiedBytes u = 1 ∧ u < 256) ∨
    (calcOccupiedBytes u = 2 ∧ 256 ≤ u ∧ u < 65536) ∨
    (calcOccupiedBytes u = 3 ∧ 65536 ≤ u ∧ u < 16777216) ∨
    (calcOccupiedBytes u = 4 ∧ 16777216 ≤ u ∧ u < 4294967296) ∨
    (calcOccupiedBytes u = 5 ∧ 4294967296 ≤ u ∧ u < 1099511627776) ∨
    (calcOccupiedBytes u = 6 ∧ 1099511627776 ≤ u ∧ u < 281474976710656) ∨
    (calcOccupiedBytes u = 7 ∧ 281474976710656 ≤ u ∧ u < 72057594037927936) ∨
    (calcOccupiedBytes u = 8 ∧ 72057594037927936 ≤ u) := by
  have hmod : u % 2 ^ 64 = u := by omega
  have hc : ∀ k, k ≤ 7 → u < 256 ^ (k + 1) → (k = 0 ∨ 256 ^ k ≤ u) →
      calcOccupiedBytes u = k + 1 := by
    intro k hk h1 h2
    unfold calcOccupiedBytes
    rw [hmod, calcOccupiedBytesLoop_eq k 7 u 0 hk h1 h2]
    omega
  by_cases h1 : u < 256
  · exact Or.inl ⟨hc 0 (by omega) (by norm_num; exact h1) (Or.inl rfl), h1⟩
  by_cases h2 : u < 65536
  · exact Or.inr (Or.inl ⟨hc 1 (by omega) (by norm_num; exact h2)
      (Or.inr (by norm_num; omega)), by omega, h2⟩)
  by_cases h3 : u < 16777216
  · exact Or.inr (Or.inr (Or.inl ⟨hc 2 (by omega) (by norm_num; exact h3)
      (Or.inr (by norm_num; omega)), by omega, h3⟩))
  by_cases h4 : u < 4294967296
  · exact Or.inr (Or.inr (Or.inr (Or.inl ⟨hc 3 (by omega) (by norm_num; exact h4)
      (Or.inr (by norm_num; omega)), by omega, h4⟩)))
  by_cases h5 : u < 1099511627776
  · exact Or.inr (Or.inr (Or.inr (Or.inr (Or.inl ⟨hc 4 (by omega) (by norm_num; exact h5)
      (Or.inr (by norm_num; omega)), by omega, h5⟩))))
  by_cases h6 : u < 281474976710656
  · exact Or.inr (Or.inr (Or.inr (Or.inr (Or.inr (Or.inl ⟨hc 5 (by omega)
      (by norm_num; exact h6) (Or.inr (by norm_num; omega)), by omega, h6⟩)))))
  by_cases h7 : u < 72057594037927936
  · exact Or.inr (Or.inr (Or.inr (Or.inr (Or.inr (Or.inr (Or.inl ⟨hc 6 (by omega)
      (by norm_num; exact h7) (Or.inr (by norm_num; omega)), by omega, h7⟩))))))
  · exact Or.inr (Or.inr (Or.inr (Or.inr (Or.inr (Or.inr (Or.inr ⟨hc 7 (by omega)
      (by norm_num; exact hu) (Or.inr (by norm_num; omega)), by omega⟩))))))

theorem lowBytes_succ (n u : Nat) :
    lowBytes (n + 1) u = u % 256 :: lowBytes n (u / 256) := by
  unfold lowBytes
  rw [List.range_succ_eq_map, List.map_cons, List.map_map]
  congr 1
  · simp
  · apply List.map_congr_left
    intro i _
    simp only [Function.comp, pow_succ, Nat.div_div_eq_div_mul]
    rw [Nat.mul_comm]

theorem lowBytes_length (n u : Nat) : (lowBytes n u).length = n := by
  simp [lowBytes]

theorem fromLowBytes_lowBytes (n : Nat) : ∀ u, fromLowBytes (lowBytes n u) = u % 256 ^ n := by
  induction n with
  | zero => intro u; simp [lowBytes, fromLowBytes, Nat.mod_one]
  | succ n ih =>
    intro u
    rw [lowBytes_succ, fromLowBytes, ih, pow_succ, Nat.mul_comm (256 ^ n) 256, Nat.mod_mul]

theorem readInt_writeInt (T : IntType) (v : Int) :
    readInt T (writeInt v) =
      T.ofBits
        (if (2 : Int) ^ (8 * occupiedBytes v - 1)
            ≤ ((toUInt64 v % 256 ^ occupiedBytes v : Nat) : Int) then
          ((toUInt64 v % 256 ^ occupiedBytes v : Nat) : Int) - 2 ^ (8 * occupiedBytes v)
        else ((toUInt64 v % 256 ^ occupiedBytes v : Nat) : Int)) := by
  simp only [readInt, writeInt, signExtend]
  rw [List.take_of_length_le (by rw [lowBytes_length]), fromLowBytes_lowBytes, lowBytes_length]

theorem toUInt64_cast (v : Int) : ((toUInt64 v : Nat) : Int) = v % 18446744073709551616 := by
  unfold toUInt64
  have : (2 : Int) ^ 64 = 18446744073709551616 := by norm_num
  rw [this]
  omega

theorem IntType.ofBits_eq_iff (T : IntType) (x v : Int)
    (hmin : T.minValue ≤ v) (hmax : v ≤ T.maxValue) :
    T.ofBits x = v ↔ (x - v) % 2 ^ T.bits = 0 := by
  cases T <;>
    simp only [IntType.ofBits, IntType.bits, IntType.signed, IntType.minValue,
      IntType.maxValue, if_true, Bool.false_eq_true, if_false, Nat.reduceSub, Int.reducePow,
      Int.reduceNeg] at hmin hmax ⊢ <;>
    omega

theorem toUInt64_sub_emod (T : IntType) (v : Int) :
    ((toUInt64 v : Nat) - v : Int) % 2 ^ T.bits = 0 := by
  have h := toUInt64_cast v
  cases T <;> simp only [IntType.bits, Int.reducePow] <;> omega

theorem calcOccupiedBytes_bounds (u : Nat) (hu : u < 18446744073709551616) :
    1 ≤ calcOccupiedBytes u ∧ calcOccupiedBytes u ≤ 8 ∧ u < 256 ^ calcOccupiedBytes u := by
  rcases calcOccupiedBytes_cases u hu with h | h | h | h | h | h | h | h <;>
    obtain ⟨hn, hb⟩ := h <;>
    rw [hn] <;>
    refine ⟨by omega, by omega, ?_⟩ <;>
    simp only [Nat.reducePow] <;>
    omega

theorem calcOccupiedBytes_top_byte (u : Nat) (hu : u < 18446744073709551616) :
    calcOccupiedBytes u = 1 ∨ 256 ^ (calcOccupiedBytes u - 1) ≤ u := by
  rcases calcOccupiedBytes_cases u hu with h | h | h | h | h | h | h | h
  · exact Or.inl h.1
  all_goals
    obtain ⟨hn, hb⟩ := h
    right
    rw [hn]
    norm_num
    omega

theorem IntType.value_bounds (T : IntType) (v : Int)
    (hmin : T.minValue ≤ v) (hmax : v ≤ T.maxValue) :
    -9223372036854775808 ≤ v ∧ v < 18446744073709551616 := by
  cases T <;>
    simp only [IntType.bits, IntType.signed, IntType.minValue, IntType.maxValue, if_true,
      Bool.false_eq_true, if_false, Nat.reduceSub, Int.reducePow, Int.reduceNeg,
      Int.reduceSub] at hmin hmax <;>
    omega

theorem signedMagnitude_lt (v : Int) : signedMagnitude v < 18446744073709551616 := by
  unfold signedMagnitude
  simp only [Nat.reducePow, Nat.reduceSub]
  omega

theorem signedMagnitude_cases (v : Int)
    (hlo : -9223372036854775808 ≤ v) (hhi : v < 18446744073709551616) :
    (v < 0 ∧ ((signedMagnitude v : Nat) : Int) = -2 * v - 2) ∨
    (0 ≤ v ∧ v < 9223372036854775808 ∧ ((signedMagnitude v : Nat) : Int) = 2 * v) ∨
    (9223372036854775808 ≤ v ∧ signedMagnitude v = 18446744073709551615) := by
  have hc := toUInt64_cast v
  by_cases hneg : v < 0
  · left
    refine ⟨hneg, ?_⟩
    unfold signedMagnitude
    simp only [hneg, if_true, Nat.reducePow, Nat.reduceSub]
    omega
  · right
    by_cases hbig : v < 9223372036854775808
    · left
      refine ⟨by omega, hbig, ?_⟩
      unfold signedMagnitude
      simp only [hneg, if_false, Nat.reducePow, Nat.reduceSub]
      omega
    · right
      refine ⟨by omega, ?_⟩
      unfold signedMagnitude
      simp only [hneg, if_false, Nat.reducePow, Nat.reduceSub]
      omega

theorem occupiedBytes_bounds (v : Int) : 1 ≤ occupiedBytes v ∧ occupiedBytes v ≤ 8 :=
  let h := calcOccupiedBytes_bounds (signedMagnitude v) (signedMagnitude_lt v)
  ⟨h.1, h.2.1⟩

/-- The value bytes `writeInt` keeps, read as a two's-complement number of
that many bytes, are the value itself, up to the 64 bits of the conversion. -/
theorem signExtend_occupiedBytes (v : Int)
    (hlo : -9223372036854775808 ≤ v) (hhi : v < 18446744073709551616) :
    (if (2 : Int) ^ (8 * occupiedBytes v - 1)
          ≤ ((toUInt64 v % 256 ^ occupiedBytes v : Nat) : Int) then
        ((toUInt64 v % 256 ^ occupiedBytes v : Nat) : Int) - 2 ^ (8 * occupiedBytes v)
      else ((toUInt64 v % 256 ^ occupiedBytes v : Nat) : Int)) = v ∨
    (if (2 : Int) ^ (8 * occupiedBytes v - 1)
          ≤ ((toUInt64 v % 256 ^ occupiedBytes v : Nat) : Int) then
        ((toUInt64 v % 256 ^ occupiedBytes v : Nat) : Int) - 2 ^ (8 * occupiedBytes v)
      else ((toUInt64 v % 256 ^ occupiedBytes v : Nat) : Int))
      = v - 18446744073709551616 := by
  have hc := toUInt64_cast v
  have hm := signedMagnitude_cases v hlo hhi
  unfold occupiedBytes
  generalize signedMagnitude v = m at hm ⊢
  have hmlt : m < 18446744073709551616 := by omega
  generalize toUInt64 v = u at hc ⊢
  rcases calcOccupiedBytes_cases m hmlt with h | h | h | h | h | h | h | h <;>
    obtain ⟨hn, hb⟩ := h <;>
    rw [hn] <;>
    simp only [Nat.reduceMul, Nat.reduceSub, Nat.reducePow, Int.reducePow, Nat.cast_ofNat,
      Int.natCast_mod] <;>
    split_ifs <;>
    omega

theorem readInt_writeInt_eq (T : IntType) (v : Int)
    (hmin : T.minValue ≤ v) (hmax : v ≤ T.maxValue) :
    readInt T (writeInt v) = v := by
  obtain ⟨hlo, hhi⟩ := T.value_bounds v hmin hmax
  rw [readInt_writeInt, IntType.ofBits_eq_iff T _ v hmin hmax]
  rcases signExtend_occupiedBytes v hlo hhi with h | h <;>
    rw [h] <;>
    cases T <;>
    simp only [IntType.bits, Int.reducePow] <;>
    omega

theorem IntType.minValue_le_zero (T : IntType) : T.minValue ≤ 0 := by
  cases T <;> decide

theorem IntType.zero_le_maxValue (T : IntType) : 0 ≤ T.maxValue := by
  cases T <;> decide

theorem IntType.minValue_le_maxValue (T : IntType) : T.minValue ≤ T.maxValue :=
  le_trans T.minValue_le_zero T.zero_le_maxValue


/-! ## Facts about skipping and finalization -/

/-- Below the existing schema a skip round succeeds and advances the column
index by one. -/
theorem RowWriter.skipOne_bound (defaults : ValueType → Value) (w : RowWriter)
    (hlo : -2147483648 ≤ w.colNum_) (hlt : w.colNum_ < w.numFields)
    (hN : w.numFields ≤ 2147483647) :
    ∃ w1, w.skipOne defaults = .ok w1 ∧ w1.colNum_ = w.colNum_ + 1 ∧
      w1.schema_ = w.schema_ ∧ w1.schemaVer_ = w.schemaVer_ := by
  have hwrap : wrapInt32 (w.colNum_ + 1) = w.colNum_ + 1 :=
    wrapInt32_eq_self (by omega) (by simp only [RowWriter.numFields] at hlt hN; omega)
  simp only [RowWriter.numFields] at hlt
  unfold RowWriter.skipOne
  rw [if_pos hlt]
  exact ⟨_, rfl, hwrap, rfl, rfl⟩

/-- Below the existing schema, writing the declared default value of the
current column is a skip round. -/
theorem RowWriter.write_default_eq_skipOne (defaults : ValueType → Value) (w : RowWriter)
    (hlo : -2147483648 ≤ w.colNum_) (hlt : w.colNum_ < w.numFields)
    (hN : w.numFields ≤ 2147483647)
    (hkind : (defaults (w.schema_.getFieldType w.colNum_ w.schemaVer_)).kind
      = (w.schema_.getFieldType w.colNum_ w.schemaVer_).type) :
    w.write (defaults (w.schema_.getFieldType w.colNum_ w.schemaVer_))
      = w.skipOne defaults := by
  obtain ⟨schema, ver, sw, cord, c, nm, ct, offs⟩ := w
  simp only [RowWriter.numFields] at hlo hlt hN hkind
  have hwrap : wrapInt32 (c + 1) = c + 1 := wrapInt32_eq_self (by omega) (by omega)
  have hge : ¬ c ≥ schema.getNumFields ver := by omega
  have hgt : ¬ c + 1 > schema.getNumFields ver := by omega
  have hle : c + 1 ≤ schema.getNumFields ver := by omega
  by_cases hb : atBlockBoundary (c + 1) = true <;>
    simp [RowWriter.write, RowWriter.writeWith, Value.body, RW_GET_COLUMN_TYPE,
      RW_CLEAN_UP_WRITE, RowWriter.skipOne, hwrap, hge, hgt, hle, hlt, hb, hkind]

/-- Skipping `k` columns below the existing schema is writing their declared
default values one by one. -/
theorem RowWriter.skipLoop_eq_pushAll (defaults : ValueType → Value) (k : Nat) :
    ∀ (w : RowWriter), -2147483648 ≤ w.colNum_ →
      w.colNum_ + (k : Int) ≤ w.numFields → w.numFields ≤ 2147483647 →
      (∀ i : Int, w.colNum_ ≤ i → i < w.numFields →
        (defaults (w.schema_.getFieldType i w.schemaVer_)).kind
          = (w.schema_.getFieldType i w.schemaVer_).type) →
      ∃ wN, w.skipLoop defaults k = .ok wN ∧
        w.pushAll (defaultTokens defaults w.schema_ w.schemaVer_ w.colNum_ k) = .ok wN ∧
        wN.colNum_ = w.colNum_ + (k : Int) := by
  induction k with
  | zero =>
    intro w _ _ _ _
    exact ⟨w, rfl, rfl, by simp⟩
  | succ k ih =>
    intro w hlo hk hN hkind
    have hlt : w.colNum_ < w.numFields := by
      push_cast at hk
      omega
    obtain ⟨w1, hs1, hc1, hsch, hver⟩ := RowWriter.skipOne_bound defaults w hlo hlt hN
    have hw1 := RowWriter.write_default_eq_skipOne defaults w hlo hlt hN
      (hkind w.colNum_ (le_refl _) hlt)
    rw [hs1] at hw1
    have hnum : w1.numFields = w.numFields := by
      simp only [RowWriter.numFields, hsch, hver]
    obtain ⟨wN, i1, i2, i3⟩ := ih w1 (by omega)
      (by rw [hc1, hnum]; push_cast at hk; omega) (by rw [hnum]; exact hN)
      (by
        intro i hi1 hi2
        rw [hsch, hver]
        exact hkind i (by omega) (by rw [← hnum]; exact hi2))
    refine ⟨wN, ?_, ?_, ?_⟩
    · simp only [RowWriter.skipLoop, hs1]
      exact i1
    · simp only [defaultTokens, RowWriter.pushAll]
      have hp : w.push (Token.value (defaults (w.schema_.getFieldType w.colNum_ w.schemaVer_)))
          = .ok w1 := hw1
      rw [hp]
      simp only
      rw [hsch, hver, hc1] at i2
      exact i2
    · rw [i3, hc1]
      push_cast
      omega

theorem writeInt_length (v : Int) :
    (writeInt v).length = 1 + occupiedBytes v := by
  simp only [writeInt, List.length_cons, lowBytes_length]
  omega

theorem offsetTable_length (offsets : List Int) :
    (offsetTable offsets).length = 8 * offsets.length := by
  induction offsets with
  | nil => rfl
  | cons o os ih =>
    simp only [offsetTable, List.length_append, lowBytes_length, ih, List.length_cons]
    omega

theorem Result.exists_ok_of_toBool {α : Type} (r : Result α) (h : r.toBool = true) :
    ∃ a, r = .ok a := by
  cases r with
  | error e => simp [Except.toBool] at h
  | ok a => exact ⟨a, rfl⟩

/-! ## The claims -/

/-- C1: after K value writes on a fresh RowWriter, each running
`RW_CLEAN_UP_WRITE` once, `blockOffsets_` holds exactly `K / 16` entries
(rounded down), whatever the operators append and whatever control tokens are
pushed in between.  K ranges over the column counts an `int32_t` `colNum_`
can hold. -/
theorem blockOffsets_length_after_writes (schema : SchemaProviderIf) (schemaVer : Int)
    (schemaWriter : Option SchemaWriter) (toks : List Token) (w' : RowWriter)
    (hK : (countWrites toks : Int) ≤ INT32_MAX)
    (h : (RowWriter.fresh schema schemaVer schemaWriter).pushAll toks = .ok w') :
    w'.blockOffsets_.length = countWrites toks / 16 := by
  have hlen := RowWriter.pushAll_blockOffsets_length toks
    (RowWriter.fresh schema schemaVer schemaWriter) w' (by simp [RowWriter.fresh])
    (by simp only [RowWriter.fresh, INT32_MAX] at hK ⊢; omega) h
  simp only [RowWriter.fresh, List.length_nil, Nat.cast_zero, zero_add] at hlen
  omega

/-- Seventeen integer writes without a schema leave one block offset. -/
theorem blockOffsets_length_after_writes_witness :
    (countWrites (List.replicate 17 (Token.value (Value.int IntType.int32 7))) : Int)
        ≤ INT32_MAX ∧
    ∃ w', (RowWriter.withoutSchema 0).pushAll
        (List.replicate 17 (Token.value (Value.int IntType.int32 7))) = .ok w' ∧
      w'.blockOffsets_.length = 1 :=
  ⟨by decide, _, rfl, blockOffsets_length_after_writes noSchema 0 (some { columns := [] })
    (List.replicate 17 (Token.value (Value.int IntType.int32 7))) _ (by decide) rfl⟩

/-- C2: for any row written on a fresh RowWriter, every value of which takes
at least one byte in the buffer (as every value of the specification's codec
does), the entries of `blockOffsets_` are strictly increasing, and each is a
prefix length of the final buffer: it lies between 0 and the final length of
`cord_`. -/
theorem blockOffsets_increasing_within_cord (schema : SchemaProviderIf) (schemaVer : Int)
    (schemaWriter : Option SchemaWriter) (toks : List Token) (w' : RowWriter)
    (henc : ∀ t ∈ toks, t.appendsBytes)
    (h : (RowWriter.fresh schema schemaVer schemaWriter).pushAll toks = .ok w') :
    w'.blockOffsets_.Pairwise (· < ·) ∧
      ∀ o ∈ w'.blockOffsets_, 0 ≤ o ∧ o ≤ (w'.cord_.length : Int) :=
  RowWriter.pushAll_blockOffsets_valid toks (RowWriter.fresh schema schemaVer schemaWriter) w'
    henc (by simp [RowWriter.fresh]) (by simp [RowWriter.fresh]) h

set_option maxRecDepth 100000 in
/-- Thirty-three boolean writes record the offsets 16 and 32 in a buffer of
33 bytes. -/
theorem blockOffsets_increasing_within_cord_witness :
    ((RowWriter.withoutSchema 0).pushAll
        (List.replicate 33 (Token.value (Value.bool true)))).toOption.map
          (fun w => (w.blockOffsets_, w.cord_.length)) = some ([16, 32], 33) ∧
    ∃ w', (RowWriter.withoutSchema 0).pushAll
        (List.replicate 33 (Token.value (Value.bool true))) = .ok w' ∧
      w'.blockOffsets_.Pairwise (· < ·) ∧
      ∀ o ∈ w'.blockOffsets_, 0 ≤ o ∧ o ≤ (w'.cord_.length : Int) :=
  ⟨by decide!, (Result.exists_ok_of_toBool _ (by decide!)).elim fun w' hw' =>
    ⟨w', hw', blockOffsets_increasing_within_cord noSchema 0 (some { columns := [] })
      (List.replicate 33 (Token.value (Value.bool true))) w'
      (fun t ht => by
        rw [List.eq_of_mem_replicate ht]
        exact Token.value_appendsBytes _)
      hw'⟩⟩

/-- C3: for every value `v` of every supported integer type (signed and
unsigned, 8/16/32/64-bit), `writeInt` emits a framing unit and then
`calcOccupiedBytes`-many value bytes, and sign-extending these value bytes
back to the declared width recovers `v` exactly; so it is for 0, for the
minimum and for the maximum of the type. -/
theorem writeInt_sign_extension_roundtrip (T : IntType) (v : Int)
    (hmin : T.minValue ≤ v) (hmax : v ≤ T.maxValue) :
    (∃ unit bytes, writeInt v = unit :: bytes ∧
      bytes.length = calcOccupiedBytes (signedMagnitude v) ∧
      unit = bytes.length ∧
      signExtend T bytes = v) ∧
    readInt T (writeInt v) = v ∧
    readInt T (writeInt 0) = 0 ∧
    readInt T (writeInt T.minValue) = T.minValue ∧
    readInt T (writeInt T.maxValue) = T.maxValue := by
  have hread := readInt_writeInt_eq T v hmin hmax
  refine ⟨⟨occupiedBytes v, lowBytes (occupiedBytes v) (toUInt64 v), rfl, ?_, ?_, ?_⟩, hread,
    readInt_writeInt_eq T 0 T.minValue_le_zero T.zero_le_maxValue,
    readInt_writeInt_eq T T.minValue (le_refl _) T.minValue_le_maxValue,
    readInt_writeInt_eq T T.maxValue T.minValue_le_maxValue (le_refl _)⟩
  · rw [lowBytes_length]
    rfl
  · rw [lowBytes_length]
  · have h : readInt T (writeInt v) =
        signExtend T ((lowBytes (occupiedBytes v) (toUInt64 v)).take (occupiedBytes v)) := rfl
    rw [h, List.take_of_length_le (by rw [lowBytes_length])] at hread
    exact hread

/-- The value 128 of `int16_t` is emitted as the framing unit and the two value
bytes 0x80 0x00, and is read back as 128; also as a value of `uint16_t`. -/
theorem writeInt_sign_extension_roundtrip_witness :
    IntType.int16.minValue ≤ 128 ∧ (128 : Int) ≤ IntType.int16.maxValue ∧
      writeInt 128 = [2, 128, 0] ∧
      readInt IntType.int16 (writeInt 128) = 128 ∧
      readInt IntType.uint16 (writeInt 128) = 128 ∧
      writeInt (-2147483648) = [4, 0, 0, 0, 128] ∧
      readInt IntType.int32 (writeInt (-2147483648)) = -2147483648 :=
  ⟨by decide, by decide, by decide,
    (writeInt_sign_extension_roundtrip IntType.int16 128 (by decide) (by decide)).2.1,
    by decide, by decide, by decide⟩

/-- C4, as amended: K values written into a session without an existing
schema and without overrides all succeed and append, in write order, the
fields named Column1, Column2, ..., ColumnK (the name carries the column index
after its increment), the i-th field having the type inferred from the kind of
the i-th pushed value.  K ranges over the column counts an `int32_t` holds. -/
theorem columns_synthesized_in_write_order (schemaVer : Int) (vs : List Value)
    (hK : (vs.length : Int) ≤ INT32_MAX) :
    ∃ w', (RowWriter.withoutSchema schemaVer).pushAll (vs.map Token.value) = .ok w' ∧
      w'.schemaWriter_ = some (SchemaWriter.mk (vs.enum.map
        (fun p => ("Column" ++ toString ((p.1 : Int) + 1), ValueType.mk p.2.kind)))) := by
  obtain ⟨w', hw', hcols⟩ := RowWriter.pushAll_values_columns vs
    (RowWriter.withoutSchema schemaVer) { columns := [] } 0 rfl
    (by simp [RowWriter.withoutSchema, RowWriter.fresh, noSchema])
    (by simp only [INT32_MAX] at hK; push_cast; omega) rfl rfl rfl
  exact ⟨w', hw', by rw [hcols]; simp [List.enum]⟩

/-- A boolean, an integer and a text written without a schema. -/
theorem columns_synthesized_in_write_order_witness :
    ∃ w', (RowWriter.withoutSchema 0).pushAll
        [Token.value (Value.bool true), Token.value (Value.int IntType.int64 10),
          Token.value (Value.string [72, 105])] = .ok w' ∧
      w'.schemaWriter_ = some (SchemaWriter.mk
        [("Column1", ValueType.mk SupportedType.BOOL),
         ("Column2", ValueType.mk SupportedType.INT),
         ("Column3", ValueType.mk SupportedType.STRING)]) :=
  columns_synthesized_in_write_order 0
    [Value.bool true, Value.int IntType.int64 10, Value.string [72, 105]] (by decide)

/-- C4 fails as stated: the field appended by the first write into a session
without a schema is named Column1, not Column0. -/
theorem first_synthesized_column_is_not_Column0 :
    ((RowWriter.withoutSchema 0).pushAll [Token.value (Value.bool true)]).toOption.map
        (fun w => w.schemaWriter_)
      = some (some (SchemaWriter.mk [("Column1", ValueType.mk SupportedType.BOOL)])) ∧
    ((RowWriter.withoutSchema 0).pushAll [Token.value (Value.bool true)]).toOption.map
        (fun w => w.schemaWriter_)
      ≠ some (some (SchemaWriter.mk [("Column0", ValueType.mk SupportedType.BOOL)])) := by
  decide

/-- C5: a value write increases `colNum_` by exactly 1 (so never decreases
it), as long as `colNum_++` stays within `int32_t`; and a fresh session
against a schema with N fields, into which N values were written, ends with
`colNum_ = N`. -/
theorem colNum_counts_writes :
    (∀ (w w' : RowWriter) (STYPE : SupportedType) (body : ValueType → Option (List Nat)),
      -2147483648 ≤ w.colNum_ → w.colNum_ < INT32_MAX →
      w.writeWith STYPE body = .ok w' →
      w'.colNum_ = w.colNum_ + 1 ∧ w.colNum_ < w'.colNum_) ∧
    (∀ (schema : SchemaProviderIf) (schemaVer : Int) (schemaWriter : Option SchemaWriter)
      (toks : List Token) (w' : RowWriter),
      schema.getNumFields schemaVer ≤ INT32_MAX →
      (countWrites toks : Int) = schema.getNumFields schemaVer →
      (RowWriter.fresh schema schemaVer schemaWriter).pushAll toks = .ok w' →
      w'.colNum_ = schema.getNumFields schemaVer) := by
  constructor
  · intro w w' STYPE body hlo hhi h
    have hc : w'.colNum_ = w.colNum_ + 1 := by
      rw [(RowWriter.writeWith_ok h).1]
      exact wrapInt32_eq_self (by omega) (by simp only [INT32_MAX] at hhi; omega)
    exact ⟨hc, by omega⟩
  · intro schema schemaVer schemaWriter toks w' hN hcount h
    have hc := RowWriter.pushAll_colNum toks (RowWriter.fresh schema schemaVer schemaWriter) w'
      (by simp [RowWriter.fresh])
      (by simp only [RowWriter.fresh, INT32_MAX] at hN ⊢; omega) h
    rw [hc, ← hcount]
    simp [RowWriter.fresh]

/-- The scenario of the specification: `id = 42` and `name = "abc"` written
against the schema (`id`, `name`) leave the column index at 1, then 2. -/
theorem colNum_counts_writes_witness :
    (∃ w', (RowWriter.fresh idNameSchema 0 none).write (Value.int IntType.int32 42) = .ok w' ∧
      w'.colNum_ = 1) ∧
    (∃ w', (RowWriter.fresh idNameSchema 0 none).pushAll
        [Token.value (Value.int IntType.int32 42), Token.value (Value.string [97, 98, 99])]
          = .ok w' ∧
      w'.colNum_ = 2) :=
  ⟨⟨_, rfl, (colNum_counts_writes.1 (RowWriter.fresh idNameSchema 0 none) _
      SupportedType.INT (Value.int IntType.int32 42).body (by decide) (by decide) rfl).1⟩,
   ⟨_, rfl, colNum_counts_writes.2 idNameSchema 0 none
      [Token.value (Value.int IntType.int32 42), Token.value (Value.string [97, 98, 99])] _
      (by decide) (by decide) rfl⟩⟩

/-- C6: a successful write at a column index below the field count N of the
existing schema leaves the schema-under-construction as it is; one at an index
of at least N appends exactly one field to it; and without an existing schema
the schema built by K value writes has exactly K fields.  The column index is
an `int32_t` that `colNum_++` does not overflow. -/
theorem write_appends_one_field_beyond_schema :
    (∀ (w w' : RowWriter) (STYPE : SupportedType) (body : ValueType → Option (List Nat)),
      -2147483648 ≤ w.colNum_ → w.colNum_ < INT32_MAX →
      w.writeWith STYPE body = .ok w' →
      w.colNum_ < w.schema_.getNumFields w.schemaVer_ →
      w'.schemaWriter_ = w.schemaWriter_) ∧
    (∀ (w w' : RowWriter) (STYPE : SupportedType) (body : ValueType → Option (List Nat)),
      -2147483648 ≤ w.colNum_ → w.colNum_ < INT32_MAX →
      w.writeWith STYPE body = .ok w' →
      w.schema_.getNumFields w.schemaVer_ ≤ w.colNum_ →
      ∃ (sw : SchemaWriter) (field : String × ValueType), w.schemaWriter_ = some sw ∧
        w'.schemaWriter_ = some { columns := sw.columns ++ [field] }) ∧
    (∀ (schemaVer : Int) (toks : List Token) (w' : RowWriter),
      (countWrites toks : Int) ≤ INT32_MAX →
      (RowWriter.withoutSchema schemaVer).pushAll toks = .ok w' →
      ∃ sw, w'.schemaWriter_ = some sw ∧ sw.columns.length = countWrites toks) := by
  refine ⟨?_, ?_, ?_⟩
  · intro w w' STYPE body hlo hhi h hlt
    exact (RowWriter.writeWith_ok_schemaWriter hlo
      (by simp only [INT32_MAX] at hhi; omega) h).1 hlt
  · intro w w' STYPE body hlo hhi h hge
    obtain ⟨sw, e0, e1⟩ := (RowWriter.writeWith_ok_schemaWriter hlo
      (by simp only [INT32_MAX] at hhi; omega) h).2 hge
    exact ⟨sw, _, e0, e1⟩
  · intro schemaVer toks w' hK h
    obtain ⟨sw, e0, e1⟩ := RowWriter.pushAll_columns_length toks
      (RowWriter.withoutSchema schemaVer) w' { columns := [] }
      (by simp [RowWriter.withoutSchema, RowWriter.fresh, noSchema])
      (by simp [RowWriter.withoutSchema, RowWriter.fresh])
      (by simp only [RowWriter.withoutSchema, RowWriter.fresh, INT32_MAX] at hK ⊢; omega)
      rfl h
    exact ⟨sw, e0, by rw [e1]; simp⟩

/-- A write below the schema (`id`, `name`) appends nothing; a write without
a schema appends one field; seventeen integer writes without a schema build a
schema of 17 fields. -/
theorem write_appends_one_field_beyond_schema_witness :
    (∃ w', (RowWriter.fresh idNameSchema 0 none).write (Value.int IntType.int32 42) = .ok w' ∧
      w'.schemaWriter_ = none) ∧
    (∃ w' sw field, (RowWriter.withoutSchema 0).write (Value.bool true) = .ok w' ∧
      (RowWriter.withoutSchema 0).schemaWriter_ = some sw ∧
      w'.schemaWriter_ = some { columns := sw.columns ++ [field] }) ∧
    (∃ w' sw, (RowWriter.withoutSchema 0).pushAll
        (List.replicate 17 (Token.value (Value.int IntType.int32 7))) = .ok w' ∧
      w'.schemaWriter_ = some sw ∧ sw.columns.length = 17) :=
  ⟨⟨_, rfl, write_appends_one_field_beyond_schema.1 (RowWriter.fresh idNameSchema 0 none) _
      SupportedType.INT (Value.int IntType.int32 42).body (by decide) (by decide) rfl
      (by decide)⟩,
   (Result.exists_ok_of_toBool ((RowWriter.withoutSchema 0).write (Value.bool true))
      (by decide)).elim fun w' hw' =>
     (write_appends_one_field_beyond_schema.2.1 (RowWriter.withoutSchema 0) w'
        SupportedType.BOOL (Value.bool true).body (by decide) (by decide) hw'
        (by decide)).elim fun sw hsw => hsw.elim fun field hf => ⟨w', sw, field, hw', hf⟩,
   (Result.exists_ok_of_toBool _ (by decide!)).elim fun w' hw' =>
     (write_appends_one_field_beyond_schema.2.2 0
        (List.replicate 17 (Token.value (Value.int IntType.int32 7))) w' (by decide) hw').elim
        fun sw hsw => ⟨w', sw, hw', hsw⟩⟩

/-- C7: the effective type `RW_GET_COLUMN_TYPE` resolves is the declared type
of the existing schema at that index when the column index is below N,
whatever type override is pending; otherwise the pending type override when
one is set; otherwise the type `STYPE` inferred from the kind of the pushed
value (which then becomes the pending type). -/
theorem effective_type_resolution (STYPE : SupportedType) (w : RowWriter) :
    (w.colNum_ < w.schema_.getNumFields w.schemaVer_ →
      RW_GET_COLUMN_TYPE STYPE w =
        .ok (w.schema_.getFieldType w.colNum_ w.schemaVer_, w)) ∧
    (w.schema_.getNumFields w.schemaVer_ ≤ w.colNum_ → w.schemaWriter_ ≠ none →
      ∀ ct, w.colType_ = some ct → RW_GET_COLUMN_TYPE STYPE w = .ok (ct.type_, w)) ∧
    (w.schema_.getNumFields w.schemaVer_ ≤ w.colNum_ → w.schemaWriter_ ≠ none →
      w.colType_ = none →
      RW_GET_COLUMN_TYPE STYPE w =
        .ok ({ type := STYPE }, { w with colType_ := some (ColType.ofSupportedType STYPE) })) :=
  RW_GET_COLUMN_TYPE_cases STYPE w

/-- The three cases: the declared type INT wins over a pending BOOL below the
schema; a pending INT wins over the kind of a pushed boolean; without an
override the kind of the pushed boolean is taken. -/
theorem effective_type_resolution_witness :
    RW_GET_COLUMN_TYPE SupportedType.STRING boundWithPendingType
      = .ok ({ type := SupportedType.INT }, boundWithPendingType) ∧
    RW_GET_COLUMN_TYPE SupportedType.BOOL pendingIdInt
      = .ok ({ type := SupportedType.INT }, pendingIdInt) ∧
    RW_GET_COLUMN_TYPE SupportedType.BOOL (RowWriter.withoutSchema 0)
      = .ok ({ type := SupportedType.BOOL },
          { RowWriter.withoutSchema 0 with
            colType_ := some (ColType.ofSupportedType SupportedType.BOOL) }) :=
  ⟨(effective_type_resolution SupportedType.STRING boundWithPendingType).1 (by decide),
   (effective_type_resolution SupportedType.BOOL pendingIdInt).2.1 (by decide) (by decide)
      (ColType.ofSupportedType SupportedType.INT) rfl,
   (effective_type_resolution SupportedType.BOOL (RowWriter.withoutSchema 0)).2.2
      (by decide) (by decide) rfl⟩

/-- C8: after every successful value write, in Bound or in Extending state,
both pending overrides `colName_` and `colType_` are empty. -/
theorem overrides_cleared_by_write (w w' : RowWriter) (STYPE : SupportedType)
    (body : ValueType → Option (List Nat)) (h : w.writeWith STYPE body = .ok w') :
    w'.colName_ = none ∧ w'.colType_ = none :=
  ⟨(RowWriter.writeWith_ok h).2.2.2.2.1, (RowWriter.writeWith_ok h).2.2.2.2.2.1⟩

/-- A write that consumes a pending name and a pending type. -/
theorem overrides_cleared_by_write_witness :
    ∃ w', pendingIdInt.write (Value.int IntType.int32 42) = .ok w' ∧
      w'.colName_ = none ∧ w'.colType_ = none :=
  ⟨_, rfl, overrides_cleared_by_write pendingIdInt _ SupportedType.INT
    (Value.int IntType.int32 42).body rfl⟩

/-- C9: a value write stops at the check "SchemaWriter cannot be NULL" of the
type resolution if and only if the column index is at least N and there is no
schema-under-construction; the session is then exactly as it was before the
write: same column index, block offsets, overrides and buffer. -/
theorem write_fails_without_schemaWriter (w : RowWriter) (STYPE : SupportedType)
    (body : ValueType → Option (List Nat)) :
    (RW_GET_COLUMN_TYPE STYPE w = .error (Fault.schemaWriterNull, w) ↔
      (w.schema_.getNumFields w.schemaVer_ ≤ w.colNum_ ∧ w.schemaWriter_ = none)) ∧
    ((∃ w0, w.writeWith STYPE body = .error (Fault.schemaWriterNull, w0)) ↔
      (w.schema_.getNumFields w.schemaVer_ ≤ w.colNum_ ∧ w.schemaWriter_ = none)) ∧
    (∀ w0, w.writeWith STYPE body = .error (Fault.schemaWriterNull, w0) →
      w0.colNum_ = w.colNum_ ∧ w0.blockOffsets_ = w.blockOffsets_ ∧
      w0.colName_ = w.colName_ ∧ w0.colType_ = w.colType_ ∧ w0.cord_ = w.cord_) := by
  have key : ∀ w0, w.writeWith STYPE body = .error (Fault.schemaWriterNull, w0) →
      w0 = w ∧ w.schema_.getNumFields w.schemaVer_ ≤ w.colNum_ ∧ w.schemaWriter_ = none := by
    intro w0 h
    rcases RowWriter.writeWith_error h with ⟨-, e2, e3, e4⟩ | ⟨e1, -⟩ | e1
    · exact ⟨e2, e3, e4⟩
    · cases e1
    · cases e1
  refine ⟨?_, ?_, ?_⟩
  · constructor
    · intro h
      obtain ⟨-, -, e3, e4⟩ := RW_GET_COLUMN_TYPE_error h
      exact ⟨e3, e4⟩
    · rintro ⟨hN, hsw⟩
      exact RW_GET_COLUMN_TYPE_error_of hN hsw
  · constructor
    · rintro ⟨w0, h⟩
      exact (key w0 h).2
    · rintro ⟨hN, hsw⟩
      refine ⟨w, ?_⟩
      unfold RowWriter.writeWith
      rw [RW_GET_COLUMN_TYPE_error_of hN hsw]
  · intro w0 h
    obtain ⟨e, -, -⟩ := key w0 h
    subst e
    exact ⟨rfl, rfl, rfl, rfl, rfl⟩

/-- A third value pushed into a session bound to the schema (`id`, `name`):
there is no schema-under-construction, the check stops the write. -/
theorem write_fails_without_schemaWriter_witness :
    RW_GET_COLUMN_TYPE SupportedType.BOOL pastIdName
      = .error (Fault.schemaWriterNull, pastIdName) ∧
    pastIdName.write (Value.bool true) = .error (Fault.schemaWriterNull, pastIdName) ∧
    ∃ w0, pastIdName.writeWith SupportedType.BOOL (Value.bool true).body
      = .error (Fault.schemaWriterNull, w0) :=
  ⟨(write_fails_without_schemaWriter pastIdName SupportedType.BOOL (Value.bool true).body).1.2
      ⟨by decide, rfl⟩,
   rfl,
   (write_fails_without_schemaWriter pastIdName SupportedType.BOOL (Value.bool true).body).2.1.2
      ⟨by decide, rfl⟩⟩

/-- C10: once the type of the next column has been overridden to text in a
session that has a schema-under-construction, pushing a boolean reports a type
mismatch at that write: the session stops where the override left it, with no
byte appended to the buffer. -/
theorem bool_into_text_column_is_type_mismatch (w0 w : RowWriter) (b : Bool)
    (hsw : w0.schemaWriter_ ≠ none)
    (hset : w0.setColType SupportedType.STRING = .ok w) :
    w.write (Value.bool b) = .error (Fault.typeMismatch, w) ∧ w.cord_ = w0.cord_ := by
  obtain ⟨hc, hcord, hs, hv, hw, -, -, hty, hN⟩ := RowWriter.setColType_ok hset
  have hN1 : w.schema_.getNumFields w.schemaVer_ ≤ w.colNum_ := by
    simp only [RowWriter.numFields, hs, hv, hc] at hN ⊢
    exact hN
  have hG := (RW_GET_COLUMN_TYPE_cases SupportedType.BOOL w).2.1 hN1
    (by rw [hw]; exact hsw) _ hty
  refine ⟨?_, hcord⟩
  unfold RowWriter.write RowWriter.writeWith
  simp only [Value.kind]
  rw [hG]
  simp [ColType.ofSupportedType, Value.body, Value.kind]

/-- The scenario of the specification, without an existing schema. -/
theorem bool_into_text_column_is_type_mismatch_witness :
    ∃ w, (RowWriter.withoutSchema 0).setColType SupportedType.STRING = .ok w ∧
      w.write (Value.bool true) = .error (Fault.typeMismatch, w) ∧ w.cord_ = [] :=
  ⟨_, rfl, bool_into_text_column_is_type_mismatch (RowWriter.withoutSchema 0) _ true
    (by decide) rfl⟩

/-- C11: on a fresh session against an existing schema with N fields, after
the first j columns have been written (j ≤ N), `Skip(N - j)` and the explicit
writes of the declared default values of the remaining columns both succeed
and leave the same session: the same encoded bytes, the same buffer, the same
column index N and the same block offsets.  The declared default value of a
column is a value of the column's declared type, and N is an `int32_t`. -/
theorem skip_equals_writing_defaults (schema : SchemaProviderIf) (schemaVer : Int)
    (schemaWriter : Option SchemaWriter) (defaults : ValueType → Value)
    (first : List Token) (wj : RowWriter)
    (hN : schema.getNumFields schemaVer ≤ INT32_MAX)
    (hj : (countWrites first : Int) ≤ schema.getNumFields schemaVer)
    (hrun : (RowWriter.fresh schema schemaVer schemaWriter).pushAll first = .ok wj)
    (hkind : ∀ i : Int, (countWrites first : Int) ≤ i → i < schema.getNumFields schemaVer →
      (defaults (schema.getFieldType i schemaVer)).kind
        = (schema.getFieldType i schemaVer).type) :
    ∃ ws we,
      wj.skip defaults (schema.getNumFields schemaVer - (countWrites first : Int)) = .ok ws ∧
      wj.pushAll (defaultTokens defaults schema schemaVer (countWrites first : Int)
        (schema.getNumFields schemaVer - (countWrites first : Int)).toNat) = .ok we ∧
      ws.encode = we.encode ∧ ws.cord_ = we.cord_ ∧ ws.colNum_ = we.colNum_ ∧
      ws.blockOffsets_ = we.blockOffsets_ ∧ ws.colNum_ = schema.getNumFields schemaVer := by
  simp only [INT32_MAX] at hN
  obtain ⟨hs, hv⟩ := RowWriter.pushAll_schema first _ wj hrun
  have hc := RowWriter.pushAll_colNum first _ wj (by simp [RowWriter.fresh])
    (by simp only [RowWriter.fresh]; omega) hrun
  simp only [RowWriter.fresh, zero_add] at hs hv hc
  have hnum : wj.numFields = schema.getNumFields schemaVer := by
    simp only [RowWriter.numFields, hs, hv]
  obtain ⟨wN, h1, h2, h3⟩ := RowWriter.skipLoop_eq_pushAll defaults
    (schema.getNumFields schemaVer - (countWrites first : Int)).toNat wj
    (by rw [hc]; omega) (by rw [hc, hnum]; omega) (by rw [hnum]; exact hN)
    (by
      intro i hi1 hi2
      rw [hs, hv]
      exact hkind i (by rw [← hc]; exact hi1) (by rw [← hnum]; exact hi2))
  rw [hs, hv, hc] at h2
  refine ⟨wN, wN, h1, h2, rfl, rfl, rfl, rfl, ?_⟩
  rw [h3, hc]
  omega

/-- On the schema (`id`, `name`): `id = 42` followed by `Skip(1)`, and
`id = 42` followed by the empty text, the default of `name`. -/
theorem skip_equals_writing_defaults_witness :
    ∃ wj ws we,
      (RowWriter.fresh idNameSchema 0 none).pushAll
        [Token.value (Value.int IntType.int32 42)] = .ok wj ∧
      wj.skip zeroDefaults 1 = .ok ws ∧
      wj.pushAll [Token.value (Value.string [])] = .ok we ∧
      ws.encode = we.encode ∧ ws.cord_ = we.cord_ ∧ ws.colNum_ = we.colNum_ ∧
      ws.blockOffsets_ = we.blockOffsets_ ∧ ws.colNum_ = 2 :=
  (Result.exists_ok_of_toBool ((RowWriter.fresh idNameSchema 0 none).pushAll
      [Token.value (Value.int IntType.int32 42)]) (by decide)).elim fun wj hwj =>
    (skip_equals_writing_defaults idNameSchema 0 none zeroDefaults
      [Token.value (Value.int IntType.int32 42)] wj (by decide) (by decide) hwj
      (by
        intro i h1 h2
        have hi : i = 1 := by
          have h1' : (1 : Int) ≤ i := h1
          have h2' : i < 2 := h2
          omega
        subst hi
        decide)).elim fun ws h => h.elim fun we hh => ⟨wj, ws, we, hwj, hh⟩

/-- C12: for every session state, reachable or not, `size()` returns exactly
the length of the byte array `encode()` produces from that state, and the
session after the call is the session before it. -/
theorem size_is_length_of_encode (w : RowWriter) :
    w.size.1 = (w.encode.length : Int) ∧ w.size.2 = w := by
  refine ⟨?_, rfl⟩
  simp only [RowWriter.size, RowWriter.encode, List.length_append, writeInt_length,
    offsetTable_length]
  push_cast
  ring

/-- The row `id = 42`, `name = "abc"` is encoded in 13 bytes: six of header,
no block offset, seven of field data. -/
theorem size_is_length_of_encode_witness :
    idNameRow.encode = [1, 2, 1, 0, 1, 0, 1, 42, 1, 3, 97, 98, 99] ∧
      idNameRow.size.1 = 13 ∧ idNameRow.size.1 = (idNameRow.encode.length : Int) :=
  ⟨by decide, by decide, (size_is_length_of_encode idNameRow).1⟩

/-- C13: for every 64-bit unsigned `v`, `calcOccupiedBytes v` is the least
number of bytes `n`, between 1 and 8, with `v < 256 ^ n`: it is the byte width
of `v` without its leading zero bytes (the byte at position `n - 1` is the
highest one that is not zero, unless `n = 1`); and `calcOccupiedBytes 0 = 1`. -/
theorem calcOccupiedBytes_is_minimal_width (v : Nat) (hv : v < 2 ^ 64) :
    1 ≤ calcOccupiedBytes v ∧ calcOccupiedBytes v ≤ 8 ∧
    v < 256 ^ calcOccupiedBytes v ∧
    (∀ n, 1 ≤ n → v < 256 ^ n → calcOccupiedBytes v ≤ n) ∧
    (calcOccupiedBytes v = 1 ∨ 256 ^ (calcOccupiedBytes v - 1) ≤ v) ∧
    calcOccupiedBytes 0 = 1 := by
  have hu : v < 18446744073709551616 := by
    norm_num at hv
    exact hv
  obtain ⟨h1, h8, hlt⟩ := calcOccupiedBytes_bounds v hu
  have htop := calcOccupiedBytes_top_byte v hu
  refine ⟨h1, h8, hlt, ?_, htop, by decide⟩
  intro n hn hvn
  by_contra hgt
  rcases htop with h | h
  · omega
  · have hle : 256 ^ n ≤ 256 ^ (calcOccupiedBytes v - 1) :=
      Nat.pow_le_pow_right (by norm_num) (by omega)
    omega

/-- The value 65536 takes three bytes, and 255 takes one. -/
theorem calcOccupiedBytes_is_minimal_width_witness :
    (65536 : Nat) < 2 ^ 64 ∧ calcOccupiedBytes 65536 = 3 ∧ calcOccupiedBytes 255 = 1 ∧
      (65536 : Nat) < 256 ^ calcOccupiedBytes 65536 ∧
      (∀ n, 1 ≤ n → 65536 < 256 ^ n → calcOccupiedBytes 65536 ≤ n) :=
  ⟨by decide, by decide, by decide,
    (calcOccupiedBytes_is_minimal_width 65536 (by decide)).2.2.1,
    (calcOccupiedBytes_is_minimal_width 65536 (by decide)).2.2.2.1⟩

/-- C14: on a 32-bit column index `c ≥ 0` the test
`c != 0 && (c >> 4 << 4) == c` is `c > 0 && c mod 16 = 0`; so a write records
a block offset if and only if the column index after its increment is a
positive multiple of 16.  The value recorded is the length of the buffer at
that moment: it includes the bytes this write appended, and the bytes of the
next column start at that position. -/
theorem block_offset_recorded_at_multiples_of_16 :
    (∀ c : Int, 0 ≤ c → c ≤ INT32_MAX →
      atBlockBoundary c = (decide (c > 0) && decide (c % 16 = 0))) ∧
    (∀ (w w' : RowWriter) (STYPE : SupportedType) (body : ValueType → Option (List Nat)),
      0 ≤ w.colNum_ → w.colNum_ < INT32_MAX →
      w.writeWith STYPE body = .ok w' →
      ∃ bytes, w'.cord_ = w.cord_ ++ bytes ∧
        w'.blockOffsets_ =
          if w'.colNum_ > 0 ∧ w'.colNum_ % 16 = 0 then
            w.blockOffsets_ ++ [((w.cord_ ++ bytes).length : Int)]
          else w.blockOffsets_) ∧
    (∀ (w w' w'' : RowWriter) (S1 S2 : SupportedType)
      (b1 b2 : ValueType → Option (List Nat)),
      w.writeWith S1 b1 = .ok w' → w'.writeWith S2 b2 = .ok w'' →
      ∃ bytes next, w'.cord_ = w.cord_ ++ bytes ∧ w''.cord_ = (w.cord_ ++ bytes) ++ next) := by
  refine ⟨?_, ?_, ?_⟩
  · intro c h0 h1
    simp only [INT32_MAX] at h1
    have hiff := atBlockBoundary_eq_true_iff h0 h1
    by_cases hb : atBlockBoundary c = true
    · obtain ⟨hne, hmod⟩ := hiff.1 hb
      have hpos : c > 0 := by omega
      simp [hb, hpos, hmod]
    · have hnot : ¬ (c ≠ 0 ∧ c % 16 = 0) := fun hh => hb (hiff.2 hh)
      have hf : atBlockBoundary c = false := by simpa using hb
      rw [hf]
      by_cases hpos : c > 0
      · have hmod : ¬ c % 16 = 0 := fun hz => hnot ⟨by omega, hz⟩
        simp [hpos, hmod]
      · simp [hpos]
  · intro w w' STYPE body h0 h1 h
    simp only [INT32_MAX] at h1
    obtain ⟨hc, ⟨ty, bytes, -, hcord⟩, -, -, -, -, ho⟩ := RowWriter.writeWith_ok h
    have hw : wrapInt32 (w.colNum_ + 1) = w.colNum_ + 1 :=
      wrapInt32_eq_self (by omega) (by omega)
    rw [hw] at hc ho
    refine ⟨bytes, hcord, ?_⟩
    rw [ho, hc, hcord]
    have hiff := @atBlockBoundary_eq_true_iff (w.colNum_ + 1) (by omega) (by omega)
    by_cases hb : atBlockBoundary (w.colNum_ + 1) = true
    · obtain ⟨-, hmod⟩ := hiff.1 hb
      rw [if_pos hb, if_pos ⟨by omega, hmod⟩]
    · have hnot : ¬ (w.colNum_ + 1 > 0 ∧ (w.colNum_ + 1) % 16 = 0) :=
        fun hh => hb (hiff.2 ⟨by omega, hh.2⟩)
      rw [if_neg hb, if_neg hnot]
  · intro w w' w'' S1 S2 b1 b2 h1 h2
    obtain ⟨-, ⟨-, bytes, -, hcord1⟩, -⟩ := RowWriter.writeWith_ok h1
    obtain ⟨-, ⟨-, next, -, hcord2⟩, -⟩ := RowWriter.writeWith_ok h2
    exact ⟨bytes, next, hcord1, by rw [hcord2, hcord1]⟩

/-- The sixteenth boolean written without a schema records the offset 16, the
length of the buffer with its own byte; the seventeenth byte comes after. -/
theorem block_offset_recorded_at_multiples_of_16_witness :
    atBlockBoundary 16 = true ∧ atBlockBoundary 17 = false ∧
    (fifteenBooleans.write (Value.bool true)).toOption.map
        (fun w => (w.colNum_, w.blockOffsets_, w.cord_.length)) = some (16, [16], 16) ∧
    (∃ w' bytes, fifteenBooleans.write (Value.bool true) = .ok w' ∧
      w'.cord_ = fifteenBooleans.cord_ ++ bytes ∧
      w'.blockOffsets_ =
        if w'.colNum_ > 0 ∧ w'.colNum_ % 16 = 0 then
          fifteenBooleans.blockOffsets_ ++ [((fifteenBooleans.cord_ ++ bytes).length : Int)]
        else fifteenBooleans.blockOffsets_) :=
  ⟨(block_offset_recorded_at_multiples_of_16.1 16 (by decide) (by decide)).trans (by decide),
   (block_offset_recorded_at_multiples_of_16.1 17 (by decide) (by decide)).trans (by decide),
   by decide,
   (Result.exists_ok_of_toBool (fifteenBooleans.write (Value.bool true)) (by decide)).elim
     fun w' hw' =>
       (block_offset_recorded_at_multiples_of_16.2.1 fifteenBooleans w' SupportedType.BOOL
          (Value.bool true).body (by decide) (by decide) hw').elim
         fun bytes hb => ⟨w', bytes, hw', hb⟩⟩

/-- C15: when a write in Extending state (column index at least N) has a
pending name override, the field appended to the schema-under-construction
carries exactly that name, together with the resolved type; the synthesized
name is used when no name override is pending.  The column index is an
`int32_t` that `colNum_++` does not overflow. -/
theorem pending_name_names_appended_field (w w' : RowWriter) (STYPE : SupportedType)
    (body : ValueType → Option (List Nat))
    (hlo : -2147483648 ≤ w.colNum_) (hhi : w.colNum_ < INT32_MAX)
    (hext : w.schema_.getNumFields w.schemaVer_ ≤ w.colNum_)
    (h : w.writeWith STYPE body = .ok w') :
    ∃ sw type w1, w.schemaWriter_ = some sw ∧
      RW_GET_COLUMN_TYPE STYPE w = .ok (type, w1) ∧
      (∀ cn, w.colName_ = some cn →
        w'.schemaWriter_ = some (sw.appendCol cn.name_ type)) ∧
      (w.colName_ = none →
        w'.schemaWriter_ =
          some (sw.appendCol ("Column" ++ toString (w.colNum_ + 1)) type)) := by
  simp only [INT32_MAX] at hhi
  obtain ⟨sw, e0, e1⟩ := (RowWriter.writeWith_ok_schemaWriter hlo hhi h).2 hext
  have hsw : w.schemaWriter_ ≠ none := by rw [e0]; simp
  cases hct : w.colType_ with
  | none =>
    have hG := (RW_GET_COLUMN_TYPE_cases STYPE w).2.2 hext hsw hct
    refine ⟨sw, _, _, e0, hG, ?_, ?_⟩
    · intro cn hcn
      rw [e1, hcn, hct]
      rfl
    · intro hcn
      rw [e1, hcn, hct]
      rfl
  | some ct =>
    have hG := (RW_GET_COLUMN_TYPE_cases STYPE w).2.1 hext hsw ct hct
    refine ⟨sw, _, _, e0, hG, ?_, ?_⟩
    · intro cn hcn
      rw [e1, hcn, hct]
      rfl
    · intro hcn
      rw [e1, hcn, hct]
      rfl

/-- The pending name `id` and the pending type INT become the first field. -/
theorem pending_name_names_appended_field_witness :
    ∃ w', pendingIdInt.write (Value.int IntType.int32 42) = .ok w' ∧
      w'.schemaWriter_ = some { columns := [("id", { type := SupportedType.INT })] } :=
  (Result.exists_ok_of_toBool (pendingIdInt.write (Value.int IntType.int32 42))
    (by decide)).elim fun w' hw' =>
    (pending_name_names_appended_field pendingIdInt w' SupportedType.INT
      (Value.int IntType.int32 42).body (by decide) (by decide) (by decide) hw').elim
      fun sw hsw => hsw.elim fun type ht => ht.elim fun w1 h1 =>
        ⟨w', hw', by
          have hsw0 : pendingIdInt.schemaWriter_ = some { columns := [] } := rfl
          have hG0 : RW_GET_COLUMN_TYPE SupportedType.INT pendingIdInt
              = .ok ({ type := SupportedType.INT }, pendingIdInt) := rfl
          obtain ⟨e0, e1, e2, -⟩ := h1
          rw [hsw0] at e0
          rw [hG0] at e1
          cases e0
          cases e1
          exact e2 { name_ := "id" } rfl⟩

/-- C16: in a session on an existing schema, whose field count N is fixed,
the passage from Bound to Extending is one-way: once the column index has
reached N, it is at least N before every later write, whatever was pushed in
between, so every later write is resolved in Extending state and takes its
type from the pending override or from the pushed value, never from the
existing schema.  The column index stays within `int32_t`. -/
theorem extending_state_is_permanent (w w' : RowWriter) (toks : List Token)
    (hlo : -2147483648 ≤ w.colNum_)
    (hhi : w.colNum_ + (countWrites toks : Int) ≤ INT32_MAX)
    (hext : w.schema_.getNumFields w.schemaVer_ ≤ w.colNum_)
    (h : w.pushAll toks = .ok w') :
    w'.schema_.getNumFields w'.schemaVer_ = w.schema_.getNumFields w.schemaVer_ ∧
    w'.schema_.getNumFields w'.schemaVer_ ≤ w'.colNum_ ∧
    (∀ STYPE type w1, RW_GET_COLUMN_TYPE STYPE w' = .ok (type, w1) →
      type = (w'.colType_.getD (ColType.ofSupportedType STYPE)).type_) := by
  simp only [INT32_MAX] at hhi
  obtain ⟨hs, hv⟩ := RowWriter.pushAll_schema toks w w' h
  have hc := RowWriter.pushAll_colNum toks w w' hlo hhi h
  have hN : w'.schema_.getNumFields w'.schemaVer_ = w.schema_.getNumFields w.schemaVer_ := by
    rw [hs, hv]
  have hext' : w'.schema_.getNumFields w'.schemaVer_ ≤ w'.colNum_ := by
    rw [hN, hc]
    omega
  refine ⟨hN, hext', ?_⟩
  intro STYPE type w1 hG
  exact ((RW_GET_COLUMN_TYPE_ok hG).2.2.2.2.2.2.2.2 hext').2.2

/-- Two more columns written past the schema (`id`, `name`): the column index
goes from 2 to 4 and stays beyond the two fields. -/
theorem extending_state_is_permanent_witness :
    ∃ w', extendingIdName.pushAll
        [Token.value (Value.bool true), Token.colName "age",
          Token.value (Value.int IntType.int32 7)] = .ok w' ∧
      w'.colNum_ = 4 ∧ w'.schema_.getNumFields w'.schemaVer_ ≤ w'.colNum_ :=
  (Result.exists_ok_of_toBool (extendingIdName.pushAll
      [Token.value (Value.bool true), Token.colName "age",
        Token.value (Value.int IntType.int32 7)]) (by decide)).elim fun w' hw' =>
    ⟨w', hw', by
      have hrun : (extendingIdName.pushAll
          [Token.value (Value.bool true), Token.colName "age",
            Token.value (Value.int IntType.int32 7)]).toOption.map (fun s => s.colNum_)
            = some 4 := by decide
      rw [hw'] at hrun
      simpa [Except.toOption] using hrun,
     (extending_state_is_permanent extendingIdName w'
        [Token.value (Value.bool true), Token.colName "age",
          Token.value (Value.int IntType.int32 7)]
        (by decide) (by decide) (by decide) hw').2.1⟩

/-- C17: within one value write, against one field count N and with a column
index that `colNum_++` does not overflow, the clean-up takes its branch that
appends a column (index after the increment greater than N) exactly when the
type resolution took its Extending branch (index before the increment at
least N).  So whenever the clean-up dereferences `colType_` and
`schemaWriter_`, the type resolution has made sure both are set, and no value
write ends in a null dereference. -/
theorem cleanup_dereferences_only_set_pointers (w : RowWriter) (STYPE : SupportedType)
    (body : ValueType → Option (List Nat))
    (hlo : -2147483648 ≤ w.colNum_) (hhi : w.colNum_ < INT32_MAX) :
    (wrapInt32 (w.colNum_ + 1) > w.schema_.getNumFields w.schemaVer_ ↔
      w.colNum_ ≥ w.schema_.getNumFields w.schemaVer_) ∧
    (∀ type w1, RW_GET_COLUMN_TYPE STYPE w = .ok (type, w1) →
      wrapInt32 (w1.colNum_ + 1) > w1.schema_.getNumFields w1.schemaVer_ →
      w1.schemaWriter_ ≠ none ∧ w1.colType_ ≠ none) ∧
    (∀ w0, w.writeWith STYPE body ≠ .error (Fault.nullDereference, w0)) := by
  simp only [INT32_MAX] at hhi
  have hwrap : wrapInt32 (w.colNum_ + 1) = w.colNum_ + 1 :=
    wrapInt32_eq_self (by omega) (by omega)
  refine ⟨?_, ?_, ?_⟩
  · rw [hwrap]
    constructor <;> intro hh <;> omega
  · intro type w1 hG hgt
    obtain ⟨g1, -, g3, g4, g5, -, -, -, gE⟩ := RW_GET_COLUMN_TYPE_ok hG
    rw [g1, g3, g4, hwrap] at hgt
    obtain ⟨e1, e2, -⟩ := gE (by simp only [RowWriter.numFields]; omega)
    exact ⟨by rw [g5]; exact e1, by rw [e2]; simp⟩
  · intro w0
    exact RowWriter.writeWith_no_nullDereference hlo hhi

/-- Without a schema the first write resolves in Extending state and appends;
on the schema (`id`, `name`) it resolves in Bound state and does not. -/
theorem cleanup_dereferences_only_set_pointers_witness :
    (wrapInt32 ((RowWriter.withoutSchema 0).colNum_ + 1) > 0 ∧
      (RowWriter.withoutSchema 0).colNum_ ≥ 0) ∧
    (¬ wrapInt32 ((RowWriter.fresh idNameSchema 0 none).colNum_ + 1) > 2 ∧
      ¬ (RowWriter.fresh idNameSchema 0 none).colNum_ ≥ 2) ∧
    (∀ w0, (RowWriter.withoutSchema 0).write (Value.bool true)
      ≠ .error (Fault.nullDereference, w0)) :=
  ⟨⟨by decide, by decide⟩, ⟨by decide, by decide⟩,
   (cleanup_dereferences_only_set_pointers (RowWriter.withoutSchema 0) SupportedType.BOOL
      (Value.bool true).body (by decide) (by decide)).2.2⟩

end vgraph
